import Mathlib

/-!
Verification of the backfill subsystem of the btcmonitor repository.

Modelling conventions, used throughout:
* A calendar day is its proleptic-Gregorian ordinal (Python `date.toordinal()`),
  a `Nat`.  ISO-8601 date strings are in an order-preserving bijection with
  ordinals, so Python comparisons and set membership on `"YYYY-MM-DD"` strings
  are modelled by the same operations on `Nat`.
* Prices are `Rat` (only order comparisons on prices matter to the code).
* A record dictionary is a structure; a missing/falsy `"date"` key is `none`.
* Python exceptions are `Except String`; fallible collaborators are passed in
  as function parameters.
-/

/-! ## Gap detection: `BackfillOrchestrator.get_gaps` (src/monitor/backfill.py) -/

/-- One closing step of the gap walk: Python
`if gap_start and gap_len >= 3: gaps.append((gap_start, e))`. -/
def closeGap (gs : Option Nat) (gl : Nat) (e : Nat) (acc : List (Nat × Nat)) :
    List (Nat × Nat) :=
  match gs with
  | some s => if 3 ≤ gl then acc ++ [(s, e)] else acc
  | none => acc

/-- The `while current <= end_date` walk of `get_gaps`, with fuel `n` equal to
the number of remaining days and `c` the current day.  On an existing day the
open gap is closed at `c - 1`; on a missing day the gap is extended (or opened
at `c`).  After the walk the trailing gap is closed at `end_date`. -/
def getGapsLoop (ex : Nat → Bool) (endD : Nat) :
    Nat → Nat → Option Nat → Nat → List (Nat × Nat) → List (Nat × Nat)
  | 0, _, gs, gl, acc => closeGap gs gl endD acc
  | n + 1, c, gs, gl, acc =>
    if ex c then
      getGapsLoop ex endD n (c + 1) none 0 (closeGap gs gl (c - 1) acc)
    else
      match gs with
      | some s => getGapsLoop ex endD n (c + 1) (some s) (gl + 1) acc
      | none => getGapsLoop ex endD n (c + 1) (some c) (gl + 1) acc

/-- `BackfillOrchestrator.get_gaps(start_date, end_date, existing)`:
walk every day from `startD` to `endD` inclusive and collect the maximal
runs of at least 3 consecutive missing days. -/
def getGaps (startD endD : Nat) (ex : Nat → Bool) : List (Nat × Nat) :=
  getGapsLoop ex endD (endD + 1 - startD) startD none 0 []

/-- Specification-side predicate: `(s, e)` is a maximal run of at least three
consecutive days missing from `ex` inside `[startD, endD]`. -/
def IsGap (startD endD : Nat) (ex : Nat → Bool) (s e : Nat) : Prop :=
  startD ≤ s ∧ s + 2 ≤ e ∧ e ≤ endD ∧
  (∀ d, s ≤ d → d ≤ e → ex d = false) ∧
  (s = startD ∨ ex (s - 1) = true) ∧
  (e = endD ∨ ex (e + 1) = true)

/-- Loop invariant of the gap walk at current day `c`. -/
def LoopInv (startD : Nat) (ex : Nat → Bool) (c : Nat) (gs : Option Nat)
    (gl : Nat) : Prop :=
  match gs with
  | none => gl = 0 ∧ (c = startD ∨ ex (c - 1) = true)
  | some s => gl = c - s ∧ startD ≤ s ∧ s < c ∧
      (∀ d, s ≤ d → d < c → ex d = false) ∧
      (s = startD ∨ ex (s - 1) = true)

theorem getGapsLoop_succ_true {ex : Nat → Bool} {endD n c gl : Nat}
    {gs : Option Nat} {acc : List (Nat × Nat)} (hex : ex c = true) :
    getGapsLoop ex endD (n + 1) c gs gl acc =
      getGapsLoop ex endD n (c + 1) none 0 (closeGap gs gl (c - 1) acc) := by
  simp only [getGapsLoop]
  rw [if_pos hex]

theorem getGapsLoop_succ_false_some {ex : Nat → Bool} {endD n c gl s0 : Nat}
    {acc : List (Nat × Nat)} (hex : ex c = false) :
    getGapsLoop ex endD (n + 1) c (some s0) gl acc =
      getGapsLoop ex endD n (c + 1) (some s0) (gl + 1) acc := by
  simp only [getGapsLoop]
  rw [if_neg (by simp [hex])]

theorem getGapsLoop_succ_false_none {ex : Nat → Bool} {endD n c gl : Nat}
    {acc : List (Nat × Nat)} (hex : ex c = false) :
    getGapsLoop ex endD (n + 1) c none gl acc =
      getGapsLoop ex endD n (c + 1) (some c) (gl + 1) acc := by
  simp only [getGapsLoop]
  rw [if_neg (by simp [hex])]

/-- Two maximal missing runs that share their final day share their start:
used to identify a run satisfying `IsGap` with the loop's open gap. -/
theorem gapStart_unique {ex : Nat → Bool} {startD c s0 s e : Nat}
    (hs0d : startD ≤ s0) (hs0c : s0 < c)
    (hmiss : ∀ d, s0 ≤ d → d < c → ex d = false)
    (hlb : s0 = startD ∨ ex (s0 - 1) = true)
    (h1 : startD ≤ s) (hse : s ≤ e) (hec : e = c - 1)
    (h4 : ∀ d, s ≤ d → d ≤ e → ex d = false)
    (h5 : s = startD ∨ ex (s - 1) = true) : s = s0 := by
  rcases Nat.lt_trichotomy s s0 with hlt | heq | hgt
  · exfalso
    rcases hlb with hlb | hlb
    · omega
    · have hf : ex (s0 - 1) = false := h4 (s0 - 1) (by omega) (by omega)
      rw [hf] at hlb
      exact Bool.false_ne_true hlb
  · exact heq
  · exfalso
    rcases h5 with h5 | h5
    · omega
    · have hf : ex (s - 1) = false := hmiss (s - 1) (by omega) (by omega)
      rw [hf] at h5
      exact Bool.false_ne_true h5

/-- Characterization of the gap walk: an element of the output is either an
element of the accumulator or a maximal missing run of length at least 3 whose
end lies in the unprocessed region. -/
theorem getGapsLoop_mem (ex : Nat → Bool) (startD endD : Nat) :
    ∀ (n c : Nat) (gs : Option Nat) (gl : Nat) (acc : List (Nat × Nat))
      (s e : Nat), startD ≤ c → c + n = endD + 1 →
      LoopInv startD ex c gs gl →
      ((s, e) ∈ getGapsLoop ex endD n c gs gl acc ↔
        (s, e) ∈ acc ∨ (IsGap startD endD ex s e ∧ c ≤ e + 1)) := by
  intro n
  induction n with
  | zero =>
    intro c gs gl acc s e hsc hc hinv
    have hce : c = endD + 1 := by omega
    subst hce
    match gs with
    | none =>
      obtain ⟨hgl, hbd⟩ := hinv
      simp only [getGapsLoop, closeGap]
      constructor
      · exact Or.inl
      · rintro (h | ⟨⟨h1, h2, h3, h4, h5, h6⟩, h7⟩)
        · exact h
        · exfalso
          have he : e = endD := by omega
          rcases hbd with hbd | hbd
          · omega
          · have hf : ex e = false := h4 e (by omega) (by omega)
            have : endD + 1 - 1 = e := by omega
            rw [this, hf] at hbd
            exact Bool.false_ne_true hbd
    | some s0 =>
      obtain ⟨hgl, hs0d, hs0c, hmiss, hlb⟩ := hinv
      simp only [getGapsLoop, closeGap]
      by_cases hgl3 : 3 ≤ gl
      · rw [if_pos hgl3]
        simp only [List.mem_append, List.mem_singleton, Prod.mk.injEq]
        constructor
        · rintro (h | ⟨hs, he⟩)
          · exact Or.inl h
          · subst hs; subst he
            refine Or.inr ⟨⟨hs0d, by omega, by omega,
              fun d hd1 hd2 => hmiss d hd1 (by omega), hlb, Or.inl rfl⟩, by omega⟩
        · rintro (h | ⟨⟨h1, h2, h3, h4, h5, h6⟩, h7⟩)
          · exact Or.inl h
          · right
            have he : e = endD := by omega
            have hs : s = s0 :=
              gapStart_unique hs0d hs0c hmiss hlb h1 (by omega) (by omega) h4 h5
            exact ⟨hs, he⟩
      · rw [if_neg hgl3]
        constructor
        · exact Or.inl
        · rintro (h | ⟨⟨h1, h2, h3, h4, h5, h6⟩, h7⟩)
          · exact h
          · exfalso
            have he : e = endD := by omega
            have hs : s = s0 :=
              gapStart_unique hs0d hs0c hmiss hlb h1 (by omega) (by omega) h4 h5
            omega
  | succ n ih =>
    intro c gs gl acc s e hsc hc hinv
    have hcend : c ≤ endD := by omega
    by_cases hex : ex c = true
    · rw [getGapsLoop_succ_true hex]
      rw [ih (c + 1) none 0 (closeGap gs gl (c - 1) acc) s e (by omega)
        (by omega) ⟨rfl, Or.inr (by simpa using hex)⟩]
      match gs with
      | none =>
        obtain ⟨hgl, hbd⟩ := hinv
        simp only [closeGap]
        constructor
        · rintro (h | ⟨hg, h7⟩)
          · exact Or.inl h
          · exact Or.inr ⟨hg, by omega⟩
        · rintro (h | ⟨⟨h1, h2, h3, h4, h5, h6⟩, h7⟩)
          · exact Or.inl h
          · refine Or.inr ⟨⟨h1, h2, h3, h4, h5, h6⟩, ?_⟩
            by_cases hce : c ≤ e
            · omega
            · exfalso
              have he : e = c - 1 := by omega
              have hf : ex e = false := h4 e (by omega) (by omega)
              rcases hbd with hbd | hbd
              · omega
              · rw [he] at hf
                rw [hf] at hbd
                exact Bool.false_ne_true hbd
      | some s0 =>
        obtain ⟨hgl, hs0d, hs0c, hmiss, hlb⟩ := hinv
        simp only [closeGap]
        by_cases hgl3 : 3 ≤ gl
        · rw [if_pos hgl3]
          simp only [List.mem_append, List.mem_singleton, Prod.mk.injEq]
          constructor
          · rintro ((h | ⟨hs, he⟩) | ⟨hg, h7⟩)
            · exact Or.inl h
            · subst hs; subst he
              refine Or.inr ⟨⟨hs0d, by omega, by omega,
                fun d hd1 hd2 => hmiss d hd1 (by omega), hlb,
                Or.inr (by rwa [show c - 1 + 1 = c by omega])⟩, by omega⟩
            · exact Or.inr ⟨hg, by omega⟩
          · rintro (h | ⟨⟨h1, h2, h3, h4, h5, h6⟩, h7⟩)
            · exact Or.inl (Or.inl h)
            · by_cases hce : c ≤ e
              · exact Or.inr ⟨⟨h1, h2, h3, h4, h5, h6⟩, by omega⟩
              · have he : e = c - 1 := by omega
                have hs : s = s0 :=
                  gapStart_unique hs0d hs0c hmiss hlb h1 (by omega) he h4 h5
                exact Or.inl (Or.inr ⟨hs, he⟩)
        · rw [if_neg hgl3]
          constructor
          · rintro (h | ⟨hg, h7⟩)
            · exact Or.inl h
            · exact Or.inr ⟨hg, by omega⟩
          · rintro (h | ⟨⟨h1, h2, h3, h4, h5, h6⟩, h7⟩)
            · exact Or.inl h
            · refine Or.inr ⟨⟨h1, h2, h3, h4, h5, h6⟩, ?_⟩
              by_cases hce : c ≤ e
              · omega
              · exfalso
                have he : e = c - 1 := by omega
                have hs : s = s0 :=
                  gapStart_unique hs0d hs0c hmiss hlb h1 (by omega) he h4 h5
                omega
    · have hexf : ex c = false := by
        cases h : ex c
        · rfl
        · exact absurd h hex
      match gs with
      | some s0 =>
        obtain ⟨hgl, hs0d, hs0c, hmiss, hlb⟩ := hinv
        rw [getGapsLoop_succ_false_some hexf]
        rw [ih (c + 1) (some s0) (gl + 1) acc s e (by omega) (by omega)
          ⟨by omega, hs0d, by omega,
            fun d hd1 hd2 => by
              rcases Nat.lt_or_ge d c with hd | hd
              · exact hmiss d hd1 hd
              · have : d = c := by omega
                rwa [this],
            hlb⟩]
        constructor
        · rintro (h | ⟨hg, h7⟩)
          · exact Or.inl h
          · exact Or.inr ⟨hg, by omega⟩
        · rintro (h | ⟨⟨h1, h2, h3, h4, h5, h6⟩, h7⟩)
          · exact Or.inl h
          · refine Or.inr ⟨⟨h1, h2, h3, h4, h5, h6⟩, ?_⟩
            by_cases hce : c ≤ e
            · omega
            · exfalso
              have he : e = c - 1 := by omega
              rcases h6 with h6 | h6
              · omega
              · have : e + 1 = c := by omega
                rw [this, hexf] at h6
                exact Bool.false_ne_true h6
      | none =>
        obtain ⟨hgl, hbd⟩ := hinv
        rw [getGapsLoop_succ_false_none hexf]
        rw [ih (c + 1) (some c) (gl + 1) acc s e (by omega) (by omega)
          ⟨by omega, hsc, by omega,
            fun d hd1 hd2 => by
              have : d = c := by omega
              rwa [this],
            hbd⟩]
        constructor
        · rintro (h | ⟨hg, h7⟩)
          · exact Or.inl h
          · exact Or.inr ⟨hg, by omega⟩
        · rintro (h | ⟨⟨h1, h2, h3, h4, h5, h6⟩, h7⟩)
          · exact Or.inl h
          · refine Or.inr ⟨⟨h1, h2, h3, h4, h5, h6⟩, ?_⟩
            by_cases hce : c ≤ e
            · omega
            · exfalso
              have he : e = c - 1 := by omega
              rcases h6 with h6 | h6
              · omega
              · have : e + 1 = c := by omega
                rw [this, hexf] at h6
                exact Bool.false_ne_true h6

/-- The output of `get_gaps` is exactly the set of maximal missing runs of
length at least 3 inside the requested range. -/
theorem getGaps_mem_iff (startD endD : Nat) (ex : Nat → Bool) (s e : Nat) :
    (s, e) ∈ getGaps startD endD ex ↔ IsGap startD endD ex s e := by
  by_cases h : startD ≤ endD + 1
  · unfold getGaps
    rw [show endD + 1 - startD = endD + 1 - startD from rfl]
    rw [getGapsLoop_mem ex startD endD (endD + 1 - startD) startD none 0 []
      s e le_rfl (by omega) ⟨rfl, Or.inl rfl⟩]
    simp only [List.not_mem_nil, false_or]
    constructor
    · rintro ⟨hg, _⟩
      exact hg
    · intro hg
      obtain ⟨h1, h2, h3, h4, h5, h6⟩ := hg
      exact ⟨⟨h1, h2, h3, h4, h5, h6⟩, by omega⟩
  · unfold getGaps
    have h0 : endD + 1 - startD = 0 := by omega
    rw [h0]
    simp only [getGapsLoop, closeGap, List.not_mem_nil, false_iff]
    rintro ⟨h1, h2, h3, _⟩
    omega

/-- The gap walk emits ranges in strictly increasing, non-overlapping order. -/
theorem getGapsLoop_pairwise (ex : Nat → Bool) (endD : Nat) :
    ∀ (n c : Nat) (gs : Option Nat) (gl : Nat) (acc : List (Nat × Nat)),
      (∀ s0, gs = some s0 → s0 < c) →
      acc.Pairwise (fun a b => a.2 < b.1) →
      (∀ p ∈ acc, match gs with | some s0 => p.2 < s0 | none => p.2 < c) →
      (getGapsLoop ex endD n c gs gl acc).Pairwise (fun a b => a.2 < b.1) := by
  intro n
  induction n with
  | zero =>
    intro c gs gl acc hso hpw hbnd
    match gs with
    | none => exact hpw
    | some s0 =>
      simp only [getGapsLoop, closeGap]
      by_cases hgl3 : 3 ≤ gl
      · rw [if_pos hgl3]
        rw [List.pairwise_append]
        exact ⟨hpw, List.pairwise_singleton _ _,
          fun a ha b hb => by
            rw [List.mem_singleton] at hb
            subst hb
            exact hbnd a ha⟩
      · rw [if_neg hgl3]
        exact hpw
  | succ n ih =>
    intro c gs gl acc hso hpw hbnd
    by_cases hex : ex c = true
    · rw [getGapsLoop_succ_true hex]
      refine ih (c + 1) none 0 (closeGap gs gl (c - 1) acc)
        (fun s0 h => Option.noConfusion h) ?_ ?_
      · match gs with
        | none => exact hpw
        | some s0 =>
          simp only [closeGap]
          by_cases hgl3 : 3 ≤ gl
          · rw [if_pos hgl3]
            rw [List.pairwise_append]
            exact ⟨hpw, List.pairwise_singleton _ _,
              fun a ha b hb => by
                rw [List.mem_singleton] at hb
                subst hb
                exact hbnd a ha⟩
          · rw [if_neg hgl3]
            exact hpw
      · intro p hp
        match gs with
        | none =>
          simp only [closeGap] at hp
          have := hbnd p hp
          simp only at this ⊢
          omega
        | some s0 =>
          have hs0 : s0 < c := hso s0 rfl
          simp only [closeGap] at hp
          by_cases hgl3 : 3 ≤ gl
          · rw [if_pos hgl3] at hp
            rw [List.mem_append, List.mem_singleton] at hp
            rcases hp with hp | hp
            · have := hbnd p hp
              simp only at this ⊢
              omega
            · subst hp
              simp only
              omega
          · rw [if_neg hgl3] at hp
            have := hbnd p hp
            simp only at this ⊢
            omega
    · have hexf : ex c = false := by
        cases h : ex c
        · rfl
        · exact absurd h hex
      match gs with
      | some s0 =>
        have hs0 : s0 < c := hso s0 rfl
        rw [getGapsLoop_succ_false_some hexf]
        refine ih (c + 1) (some s0) (gl + 1) acc
          (fun t ht => by injection ht with ht; omega) hpw ?_
        intro p hp
        exact hbnd p hp
      | none =>
        rw [getGapsLoop_succ_false_none hexf]
        refine ih (c + 1) (some c) (gl + 1) acc
          (fun t ht => by injection ht with ht; omega) hpw ?_
        intro p hp
        have := hbnd p hp
        simp only at this ⊢
        omega

/-- Gaps returned by `get_gaps` are sorted and non-overlapping. -/
theorem getGaps_pairwise (startD endD : Nat) (ex : Nat → Bool) :
    (getGaps startD endD ex).Pairwise (fun a b => a.2 < b.1) := by
  unfold getGaps
  exact getGapsLoop_pairwise ex endD (endD + 1 - startD) startD none 0 []
    (fun s0 h => Option.noConfusion h) (List.Pairwise.nil)
    (fun p hp => absurd hp (List.not_mem_nil p))

/-- Specification-side walk to the left end of the maximal missing run
containing a day (fuel-based). -/
def runStartA (ex : Nat → Bool) (startD : Nat) : Nat → Nat → Nat
  | 0, d => d
  | f + 1, d =>
    if d = startD ∨ ex (d - 1) = true then d else runStartA ex startD f (d - 1)

/-- Specification-side walk to the right end of the maximal missing run
containing a day (fuel-based). -/
def runEndA (ex : Nat → Bool) (endD : Nat) : Nat → Nat → Nat
  | 0, d => d
  | f + 1, d =>
    if d = endD ∨ ex (d + 1) = true then d else runEndA ex endD f (d + 1)

theorem runStartA_spec (ex : Nat → Bool) (startD : Nat) :
    ∀ f d, startD ≤ d → d ≤ startD + f → ex d = false →
      startD ≤ runStartA ex startD f d ∧ runStartA ex startD f d ≤ d ∧
      (∀ x, runStartA ex startD f d ≤ x → x ≤ d → ex x = false) ∧
      (runStartA ex startD f d = startD ∨
        ex (runStartA ex startD f d - 1) = true) := by
  intro f
  induction f with
  | zero =>
    intro d h1 h2 h3
    have hd : d = startD := by omega
    simp only [runStartA]
    exact ⟨by omega, le_rfl,
      fun x hx1 hx2 => by
        have : x = d := by omega
        rwa [this], Or.inl hd⟩
  | succ f ih =>
    intro d h1 h2 h3
    simp only [runStartA]
    by_cases hcond : d = startD ∨ ex (d - 1) = true
    · rw [if_pos hcond]
      exact ⟨h1, le_rfl,
        fun x hx1 hx2 => by
          have : x = d := by omega
          rwa [this], hcond⟩
    · rw [if_neg hcond]
      push_neg at hcond
      obtain ⟨hne, hmt⟩ := hcond
      have hexd : ex (d - 1) = false := by
        cases h : ex (d - 1)
        · rfl
        · exact absurd h hmt
      obtain ⟨k1, k2, k3, k4⟩ := ih (d - 1) (by omega) (by omega) hexd
      refine ⟨k1, by omega, fun x hx1 hx2 => ?_, k4⟩
      rcases Nat.lt_or_ge x d with hx | hx
      · exact k3 x hx1 (by omega)
      · have : x = d := by omega
        rwa [this]

theorem runEndA_spec (ex : Nat → Bool) (endD : Nat) :
    ∀ f d, d ≤ endD → endD ≤ d + f → ex d = false →
      d ≤ runEndA ex endD f d ∧ runEndA ex endD f d ≤ endD ∧
      (∀ x, d ≤ x → x ≤ runEndA ex endD f d → ex x = false) ∧
      (runEndA ex endD f d = endD ∨ ex (runEndA ex endD f d + 1) = true) := by
  intro f
  induction f with
  | zero =>
    intro d h1 h2 h3
    have hd : d = endD := by omega
    simp only [runEndA]
    exact ⟨le_rfl, h1,
      fun x hx1 hx2 => by
        have : x = d := by omega
        rwa [this], Or.inl hd⟩
  | succ f ih =>
    intro d h1 h2 h3
    simp only [runEndA]
    by_cases hcond : d = endD ∨ ex (d + 1) = true
    · rw [if_pos hcond]
      exact ⟨le_rfl, h1,
        fun x hx1 hx2 => by
          have : x = d := by omega
          rwa [this], hcond⟩
    · rw [if_neg hcond]
      push_neg at hcond
      obtain ⟨hne, hmt⟩ := hcond
      have hexd : ex (d + 1) = false := by
        cases h : ex (d + 1)
        · rfl
        · exact absurd h hmt
      obtain ⟨k1, k2, k3, k4⟩ := ih (d + 1) (by omega) (by omega) hexd
      refine ⟨by omega, k2, fun x hx1 hx2 => ?_, k4⟩
      rcases Nat.lt_or_ge d x with hx | hx
      · exact k3 x (by omega) hx2
      · have : x = d := by omega
        rwa [this]

/-- Existing-set with only days 0 and 2 present, used for the C1
counterexample: day 1 is a 1-day missing run, below the 3-day threshold. -/
def exC1 : Nat → Bool := fun d => d == 0 || d == 2

/-- Existing-set with only day 0 present, used for witnesses: days 1..4 form a
trailing 4-day missing run. -/
def exW : Nat → Bool := fun d => d == 0

/-- C1 counterexample: over the range 0..2 with days 0 and 2 present, day 1 is
in the requested range but is neither existing nor covered by any returned gap
(the detector returns no gaps), so the union of existing dates and gap dates
does not equal the full range. -/
theorem C1_counterexample :
    (0 : Nat) ≤ 1 ∧ (1 : Nat) ≤ 2 ∧ getGaps 0 2 exC1 = [] ∧
    ¬ (exC1 1 = true ∨ ∃ g ∈ getGaps 0 2 exC1, g.1 ≤ 1 ∧ 1 ≤ g.2) := by
  decide

/-- C1 (amended): gap dates lie inside the requested range and are genuinely
missing, and every day of the range is existing, covered by a returned gap, or
lies in a maximal run of consecutive missing days shorter than the 3-day
minimum gap length (such short runs are deliberately not reported). -/
theorem C1_gap_union_amended (startD endD : Nat) (ex : Nat → Bool) :
    (∀ g ∈ getGaps startD endD ex, startD ≤ g.1 ∧ g.2 ≤ endD ∧
      ∀ d, g.1 ≤ d → d ≤ g.2 → ex d = false) ∧
    (∀ d, startD ≤ d → d ≤ endD → ex d = false →
      (∃ g ∈ getGaps startD endD ex, g.1 ≤ d ∧ d ≤ g.2) ∨
      (∃ u v, u ≤ d ∧ d ≤ v ∧ v + 1 - u < 3 ∧ startD ≤ u ∧ v ≤ endD ∧
        (∀ x, u ≤ x → x ≤ v → ex x = false) ∧
        (u = startD ∨ ex (u - 1) = true) ∧
        (v = endD ∨ ex (v + 1) = true))) := by
  constructor
  · intro g hg
    obtain ⟨g1, g2⟩ := g
    obtain ⟨h1, h2, h3, h4, h5, h6⟩ := (getGaps_mem_iff startD endD ex g1 g2).1 hg
    exact ⟨h1, h3, h4⟩
  · intro d hd1 hd2 hd3
    obtain ⟨k1, k2, k3, k4⟩ :=
      runStartA_spec ex startD (d - startD) d hd1 (by omega) hd3
    obtain ⟨m1, m2, m3, m4⟩ :=
      runEndA_spec ex endD (endD - d) d hd2 (by omega) hd3
    set u := runStartA ex startD (d - startD) d with hu
    set v := runEndA ex endD (endD - d) d with hv
    have hmiss : ∀ x, u ≤ x → x ≤ v → ex x = false := by
      intro x hx1 hx2
      rcases Nat.le_total x d with hx | hx
      · exact k3 x hx1 hx
      · exact m3 x hx hx2
    by_cases hlen : 3 ≤ v + 1 - u
    · left
      refine ⟨(u, v), ?_, k2, m1⟩
      exact (getGaps_mem_iff startD endD ex u v).2
        ⟨k1, by omega, m2, hmiss, k4, m4⟩
    · right
      exact ⟨u, v, k2, m1, by omega, k1, m2, hmiss, k4, m4⟩

/-- C1 witness: both parts of the amended theorem applied at concrete inputs
(the gap (1,4) over range 0..4 with only day 0 present, and missing day 2). -/
theorem C1_witness :
    (0 ≤ (1 : Nat) ∧ (4 : Nat) ≤ 4 ∧
      (∀ d, 1 ≤ d → d ≤ 4 → exW d = false)) ∧
    ((∃ g ∈ getGaps 0 4 exW, g.1 ≤ 2 ∧ 2 ≤ g.2) ∨
      (∃ u v, u ≤ 2 ∧ 2 ≤ v ∧ v + 1 - u < 3 ∧ 0 ≤ u ∧ v ≤ 4 ∧
        (∀ x, u ≤ x → x ≤ v → exW x = false) ∧
        (u = 0 ∨ exW (u - 1) = true) ∧ (v = 4 ∨ exW (v + 1) = true))) :=
  ⟨(C1_gap_union_amended 0 4 exW).1 (1, 4) (by decide),
   (C1_gap_union_amended 0 4 exW).2 2 (by decide) (by decide) (by decide)⟩

/-- C2: every range returned by gap detection has length at least the 3-day
minimum threshold, the ranges are pairwise non-overlapping and sorted in
ascending date order, and a gap still open at `end_date` that meets the
threshold is emitted with `end_date` as its end. -/
theorem C2_gap_detection (startD endD : Nat) (ex : Nat → Bool) :
    (∀ g ∈ getGaps startD endD ex, 3 ≤ g.2 + 1 - g.1 ∧
      startD ≤ g.1 ∧ g.2 ≤ endD) ∧
    (getGaps startD endD ex).Pairwise (fun a b => a.2 < b.1) ∧
    (∀ s, startD ≤ s → s + 2 ≤ endD →
      (∀ d, s ≤ d → d ≤ endD → ex d = false) →
      (s = startD ∨ ex (s - 1) = true) →
      (s, endD) ∈ getGaps startD endD ex) := by
  refine ⟨?_, getGaps_pairwise startD endD ex, ?_⟩
  · intro g hg
    obtain ⟨g1, g2⟩ := g
    obtain ⟨h1, h2, h3, h4, h5, h6⟩ := (getGaps_mem_iff startD endD ex g1 g2).1 hg
    exact ⟨by omega, h1, h3⟩
  · intro s h1 h2 h3 h4
    exact (getGaps_mem_iff startD endD ex s endD).2
      ⟨h1, h2, le_rfl, h3, h4, Or.inl rfl⟩

/-- C2 witness: the length/bounds part applied to the concrete gap (1,4), and
the trailing-gap part producing the membership of (1,4) over range 0..4 with
only day 0 present. -/
theorem C2_witness :
    (3 ≤ (4 : Nat) + 1 - 1 ∧ (0 : Nat) ≤ 1 ∧ (4 : Nat) ≤ 4) ∧
    (1, 4) ∈ getGaps 0 4 exW :=
  ⟨(C2_gap_detection 0 4 exW).1 (1, 4) (by decide),
   (C2_gap_detection 0 4 exW).2.2 1 (by decide) (by decide)
     (by decide) (Or.inr (by decide))⟩

/-! ## Validation: `BackfillOrchestrator.validate` (src/monitor/backfill.py) -/

/-- A fetched price record dictionary.  `date` is the ordinal of the ISO date
string, `none` when the `"date"` key is missing/falsy; `price_usd` defaults to
0 when absent (`r.get("price_usd", 0)`). -/
structure PriceRec where
  date : Option Nat
  price_usd : Rat
deriving DecidableEq

/-- One iteration of the `for r in records` loop of `validate`.  Python keeps
an insertion-ordered dict `seen`; a record with `price <= 0 or price >=
10_000_000` or with a falsy date is skipped, otherwise `seen[r["date"]] = r`
(the value for an existing key is replaced in place, keeping its insertion
position; a new key is appended). -/
def validStep (seen : List (Nat × PriceRec)) (r : PriceRec) :
    List (Nat × PriceRec) :=
  if r.price_usd ≤ 0 ∨ 10000000 ≤ r.price_usd then seen
  else
    match r.date with
    | none => seen
    | some d =>
      if seen.any (fun p => p.1 == d) then
        seen.map (fun p => if p.1 == d then (d, r) else p)
      else seen ++ [(d, r)]

/-- `BackfillOrchestrator.validate(records)`: run the loop, then
`list(seen.values())`. -/
def validate (records : List PriceRec) : List PriceRec :=
  (records.foldl validStep []).map (fun p => p.2)

/-- A record that passes the price and date checks of `validate`. -/
def survives (r : PriceRec) : Bool :=
  decide (0 < r.price_usd) && decide (r.price_usd < 10000000) && r.date.isSome

/-- The last record in input order that survives validation and carries date
`d`. -/
def lastKept : List PriceRec → Nat → Option PriceRec
  | [], _ => none
  | r :: rest, d =>
    match lastKept rest d with
    | some q => some q
    | none => if survives r && (r.date == some d) then some r else none

/-- Lookup of the record stored for date `d` in the `seen` dict. -/
def seenLookup (seen : List (Nat × PriceRec)) (d : Nat) : Option PriceRec :=
  (seen.find? (fun p => p.1 == d)).map (fun p => p.2)

/-- Well-formedness of the `seen` dict: distinct keys, and every stored record
survives validation and carries its key as date. -/
def SeenWF (seen : List (Nat × PriceRec)) : Prop :=
  (seen.map (fun p => p.1)).Nodup ∧
  ∀ p ∈ seen, p.2.date = some p.1 ∧ survives p.2 = true

theorem survives_of_checks {r : PriceRec} (hp : ¬(r.price_usd ≤ 0 ∨ 10000000 ≤ r.price_usd))
    {d : Nat} (hd : r.date = some d) : survives r = true := by
  push_neg at hp
  simp only [survives, hd, Option.isSome_some, Bool.and_true, Bool.and_eq_true,
    decide_eq_true_eq]
  exact ⟨hp.1, hp.2⟩

theorem validStep_wf {seen : List (Nat × PriceRec)} (h : SeenWF seen)
    (r : PriceRec) : SeenWF (validStep seen r) := by
  obtain ⟨hnd, hmem⟩ := h
  unfold validStep
  by_cases hp : r.price_usd ≤ 0 ∨ 10000000 ≤ r.price_usd
  · rw [if_pos hp]
    exact ⟨hnd, hmem⟩
  · rw [if_neg hp]
    match hdate : r.date with
    | none => exact ⟨hnd, hmem⟩
    | some d =>
      dsimp only
      by_cases hany : seen.any (fun p => p.1 == d) = true
      · rw [if_pos hany]
        constructor
        · have hkeys : (seen.map (fun p => if p.1 == d then (d, r) else p)).map
              (fun p => p.1) = seen.map (fun p => p.1) := by
            rw [List.map_map]
            refine List.map_congr_left ?_
            intro p hp'
            by_cases hpd : p.1 == d
            · simp only [Function.comp, hpd, if_pos]
              have : p.1 = d := by
                have := hpd
                simpa [beq_iff_eq] using this
              simp [this]
            · simp [Function.comp, hpd]
          rw [hkeys]
          exact hnd
        · intro p hp'
          rw [List.mem_map] at hp'
          obtain ⟨q, hq, hqe⟩ := hp'
          by_cases hqd : q.1 == d
          · rw [if_pos hqd] at hqe
            subst hqe
            exact ⟨hdate, survives_of_checks hp hdate⟩
          · rw [if_neg hqd] at hqe
            subst hqe
            exact hmem q hq
      · rw [if_neg hany]
        constructor
        · rw [List.map_append]
          simp only [List.map_cons, List.map_nil]
          rw [List.nodup_append]
          refine ⟨hnd, List.nodup_singleton d, ?_⟩
          intro a ha hb
          rw [List.mem_singleton] at hb
          subst hb
          rw [List.mem_map] at ha
          obtain ⟨q, hq, hqe⟩ := ha
          rw [List.any_eq_true] at hany
          exact hany ⟨q, hq, by simp [hqe]⟩
        · intro p hp'
          rw [List.mem_append, List.mem_singleton] at hp'
          rcases hp' with hp' | hp'
          · exact hmem p hp'
          · subst hp'
            exact ⟨hdate, survives_of_checks hp hdate⟩

theorem seenLookup_validStep (seen : List (Nat × PriceRec)) (r : PriceRec)
    (d : Nat) :
    seenLookup (validStep seen r) d =
      if survives r && (r.date == some d) then some r else seenLookup seen d := by
  unfold validStep
  by_cases hp : r.price_usd ≤ 0 ∨ 10000000 ≤ r.price_usd
  · rw [if_pos hp]
    have hs : survives r = false := by
      rcases hp with hp | hp
      · simp only [survives, Bool.and_eq_true, decide_eq_true_eq]
        have : ¬(0 < r.price_usd) := by exact not_lt.mpr hp
        simp [this]
      · simp only [survives]
        have : ¬(r.price_usd < 10000000) := by exact not_lt.mpr hp
        simp [this]
    rw [hs]
    simp
  · rw [if_neg hp]
    match hdate : r.date with
    | none =>
      simp only [survives, hdate, Option.isSome_none, Bool.and_false]
      simp
    | some d0 =>
      have hs : survives r = true := survives_of_checks hp hdate
      rw [hs]
      dsimp only
      by_cases hany : seen.any (fun p => p.1 == d0) = true
      · rw [if_pos hany]
        by_cases hdd : d0 = d
        · subst hdd
          rw [if_pos (by simp)]
          unfold seenLookup
          rw [List.find?_map, Function.comp_def]
          have hpred : (fun p : Nat × PriceRec =>
              ((if (p.1 == d0) = true then (d0, r) else p).1 == d0)) =
              fun p => (p.1 == d0) := by
            funext p
            by_cases hpd : (p.1 == d0) = true
            · simp [hpd]
            · simp [hpd]
          rw [hpred]
          have h1 : (seen.find? (fun p => (p.1 == d0))).isSome := by
            rw [List.find?_isSome]
            rw [List.any_eq_true] at hany
            obtain ⟨q, hq, hqd⟩ := hany
            exact ⟨q, hq, hqd⟩
          obtain ⟨q', hq'⟩ := Option.isSome_iff_exists.1 h1
          have hq'd := List.find?_some hq'
          have hq'eq : q'.1 = d0 := by simpa using hq'd
          rw [hq']
          simp [hq'eq]
        · rw [if_neg (by simp [hdd])]
          unfold seenLookup
          rw [List.find?_map, Function.comp_def]
          have hpred : (fun p : Nat × PriceRec =>
              ((if (p.1 == d0) = true then (d0, r) else p).1 == d)) =
              fun p => (p.1 == d) := by
            funext p
            by_cases hpd : (p.1 == d0) = true
            · have hp1 : p.1 = d0 := by simpa using hpd
              have hne : (d0 == d) = false := beq_eq_false_iff_ne.mpr hdd
              have hne2 : (p.1 == d) = false := by
                rw [hp1]
                exact hne
              simp [hpd, hne, hne2]
            · simp [hpd]
          rw [hpred]
          cases hq' : seen.find? (fun p => (p.1 == d)) with
          | none => simp
          | some q' =>
            have hq'd := List.find?_some hq'
            have hq'eq : q'.1 = d := by simpa using hq'd
            have hq'nd0 : (q'.1 == d0) = false := by
              rw [hq'eq]
              exact beq_eq_false_iff_ne.mpr (fun hcon => hdd hcon.symm)
            have hq'ne : ¬(q'.1 = d0) := by
              rw [hq'eq]
              exact fun hcon => hdd hcon.symm
            simp [hq'nd0, hq'ne]
      · rw [if_neg hany]
        by_cases hdd : d0 = d
        · subst hdd
          rw [if_pos (by simp)]
          unfold seenLookup
          rw [List.find?_append]
          have hnone : seen.find? (fun p => (p.1 == d0)) = none := by
            rw [List.find?_eq_none]
            intro p hp' hpd
            rw [List.any_eq_true] at hany
            exact hany ⟨p, hp', hpd⟩
          rw [hnone]
          simp [List.find?]
        · rw [if_neg (by simp [hdd])]
          unfold seenLookup
          rw [List.find?_append]
          have hbd : (d0 == d) = false := beq_eq_false_iff_ne.mpr hdd
          have hsingle : List.find? (fun p : Nat × PriceRec =>
              (p.1 == d)) [(d0, r)] = none := by
            simp [List.find?, hbd]
          rw [hsingle]
          simp

theorem seenLookup_foldl :
    ∀ (records : List PriceRec) (seen : List (Nat × PriceRec)) (d : Nat),
      seenLookup (records.foldl validStep seen) d =
        match lastKept records d with
        | some q => some q
        | none => seenLookup seen d := by
  intro records
  induction records with
  | nil => intro seen d; rfl
  | cons r rest ih =>
    intro seen d
    simp only [List.foldl_cons, lastKept]
    rw [ih (validStep seen r) d, seenLookup_validStep]
    cases hlk : lastKept rest d with
    | some q => rfl
    | none =>
      by_cases hc : (survives r && (r.date == some d)) = true
      · simp [hc]
      · simp [hc]

theorem lastKept_mem :
    ∀ (records : List PriceRec) (d : Nat) (q : PriceRec),
      lastKept records d = some q →
      q ∈ records ∧ survives q = true ∧ q.date = some d := by
  intro records
  induction records with
  | nil =>
    intro d q h
    exact absurd h (by simp [lastKept])
  | cons r rest ih =>
    intro d q h
    simp only [lastKept] at h
    cases hlk : lastKept rest d with
    | some q0 =>
      rw [hlk] at h
      have hq : q0 = q := by
        simpa using h
      subst hq
      obtain ⟨h1, h2, h3⟩ := ih d q0 hlk
      exact ⟨List.mem_cons_of_mem r h1, h2, h3⟩
    | none =>
      rw [hlk] at h
      by_cases hc : (survives r && (r.date == some d)) = true
      · rw [if_pos hc] at h
        have hq : r = q := by
          simpa using h
        subst hq
        rw [Bool.and_eq_true] at hc
        refine ⟨List.mem_cons_self r rest, hc.1, ?_⟩
        have := hc.2
        simpa using this
      · rw [if_neg hc] at h
        exact absurd h (by simp)

theorem lastKept_isSome (r : PriceRec) (d : Nat) :
    ∀ (records : List PriceRec), r ∈ records → survives r = true →
      r.date = some d → ∃ q, lastKept records d = some q := by
  intro records
  induction records with
  | nil =>
    intro h
    exact absurd h (List.not_mem_nil r)
  | cons r0 rest ih =>
    intro hmem hs hd
    simp only [lastKept]
    cases hlk : lastKept rest d with
    | some q0 => exact ⟨q0, rfl⟩
    | none =>
      rw [List.mem_cons] at hmem
      rcases hmem with hmem | hmem
      · subst hmem
        have hc : (survives r && (r.date == some d)) = true := by
          rw [hs, hd]
          simp
        rw [if_pos hc]
        exact ⟨r, rfl⟩
      · obtain ⟨q, hq⟩ := ih hmem hs hd
        exact absurd (hq.symm.trans hlk) (by simp)

theorem seenWF_foldl :
    ∀ (records : List PriceRec) (seen : List (Nat × PriceRec)),
      SeenWF seen → SeenWF (records.foldl validStep seen) := by
  intro records
  induction records with
  | nil =>
    intro seen h
    exact h
  | cons r rest ih =>
    intro seen h
    exact ih (validStep seen r) (validStep_wf h r)

theorem seen_mem_lookup :
    ∀ (seen : List (Nat × PriceRec)), SeenWF seen →
      ∀ p ∈ seen, seenLookup seen p.1 = some p.2 := by
  intro seen
  induction seen with
  | nil =>
    intro h p hp
    exact absurd hp (List.not_mem_nil p)
  | cons q rest ih =>
    intro h p hp
    obtain ⟨hnd, hmem⟩ := h
    rw [List.map_cons, List.nodup_cons] at hnd
    rw [List.mem_cons] at hp
    unfold seenLookup
    rcases hp with hp | hp
    · subst hp
      rw [List.find?_cons_of_pos _ (by simp)]
      rfl
    · have hne : ¬((fun x : Nat × PriceRec => x.1 == p.1) q = true) := by
        simp only [beq_iff_eq]
        intro hcon
        apply hnd.1
        rw [hcon]
        exact List.mem_map_of_mem (fun x => x.1) hp
      have hfind : List.find? (fun x : Nat × PriceRec => x.1 == p.1) (q :: rest) =
          List.find? (fun x : Nat × PriceRec => x.1 == p.1) rest :=
        List.find?_cons_of_neg rest hne
      rw [hfind]
      have hwf : SeenWF rest :=
        ⟨hnd.2, fun x hx => hmem x (List.mem_cons_of_mem q hx)⟩
      have := ih hwf p hp
      unfold seenLookup at this
      exact this

/-- Record with negative price, from the spec's validator example. -/
def badPrice1 : PriceRec := ⟨some 10, -5⟩

/-- Record with price 50,000,000 (above the 10,000,000 sanity ceiling). -/
def badPrice2 : PriceRec := ⟨some 11, 50000000⟩

/-- Record with a missing date. -/
def noDate : PriceRec := ⟨none, 100⟩

/-- First of two records sharing a date. -/
def dupA : PriceRec := ⟨some 10, 3⟩

/-- Second (later) of two records sharing a date. -/
def dupB : PriceRec := ⟨some 10, 4⟩

/-- Every output record of `validate` survives the checks, comes from the
input, and is the last surviving input record for its date. -/
theorem validate_sound (records : List PriceRec) :
    ∀ r ∈ validate records, survives r = true ∧ r ∈ records ∧
      ∀ d, r.date = some d → lastKept records d = some r := by
  have hwfnil : SeenWF [] :=
    ⟨List.nodup_nil, fun p hp => absurd hp (List.not_mem_nil p)⟩
  intro r hr
  obtain ⟨p, hp, hpe⟩ := List.mem_map.1 hr
  obtain ⟨hnd, hmem⟩ := seenWF_foldl records [] hwfnil
  obtain ⟨hpd, hps⟩ := hmem p hp
  have hlook := seen_mem_lookup _ (seenWF_foldl records [] hwfnil) p hp
  rw [seenLookup_foldl records [] p.1] at hlook
  have hlast : lastKept records p.1 = some p.2 := by
    cases hlk : lastKept records p.1 with
    | some q =>
      rw [hlk] at hlook
      have : q = p.2 := by simpa using hlook
      rw [this]
    | none =>
      rw [hlk] at hlook
      exact absurd hlook (by simp [seenLookup])
  subst hpe
  refine ⟨hps, (lastKept_mem records p.1 p.2 hlast).1, ?_⟩
  intro d hd
  have : d = p.1 := by
    rw [hpd] at hd
    exact (Option.some.inj hd).symm
  rw [this]
  exact hlast

/-- The dates of the output of `validate` are pairwise distinct. -/
theorem validate_nodupDates (records : List PriceRec) :
    ((validate records).map (fun r => r.date)).Nodup := by
  have hwfnil : SeenWF [] :=
    ⟨List.nodup_nil, fun p hp => absurd hp (List.not_mem_nil p)⟩
  obtain ⟨hnd, hmem⟩ := seenWF_foldl records [] hwfnil
  unfold validate
  rw [List.map_map]
  have hcongr : (records.foldl validStep []).map
      ((fun r => r.date) ∘ (fun p : Nat × PriceRec => p.2)) =
      (records.foldl validStep []).map (fun p => some p.1) := by
    refine List.map_congr_left ?_
    intro p hp
    exact (hmem p hp).1
  rw [hcongr]
  have : (records.foldl validStep []).map (fun p : Nat × PriceRec => some p.1) =
      ((records.foldl validStep []).map (fun p => p.1)).map some := by
    rw [List.map_map]
    rfl
  rw [this]
  exact hnd.map (fun a b h => Option.some.inj h)

/-- Every surviving input record's date is represented in the output of
`validate`. -/
theorem validate_covers (records : List PriceRec) :
    ∀ r ∈ records, survives r = true →
      ∃ q ∈ validate records, q.date = r.date := by
  intro r hr hs
  have hds : r.date.isSome = true := by
    simp only [survives, Bool.and_eq_true] at hs
    exact hs.2
  obtain ⟨d, hd⟩ := Option.isSome_iff_exists.1 hds
  obtain ⟨q, hq⟩ := lastKept_isSome r d records hr hs hd
  have hlook := seenLookup_foldl records [] d
  rw [hq] at hlook
  unfold seenLookup at hlook
  cases hfind : (records.foldl validStep []).find? (fun p => p.1 == d) with
  | none =>
    rw [hfind] at hlook
    exact absurd hlook (by simp)
  | some p2 =>
    rw [hfind] at hlook
    have hp2q : p2.2 = q := by simpa using hlook
    have hp2mem : p2 ∈ records.foldl validStep [] :=
      List.mem_of_find?_eq_some hfind
    refine ⟨q, ?_, ?_⟩
    · rw [← hp2q]
      exact List.mem_map_of_mem (fun p => p.2) hp2mem
    · have := (lastKept_mem records d q hq).2.2
      rw [this, hd]

/-- C6: `validate` drops exactly the records with `price <= 0` or
`price >= 10,000,000` and the records with a missing date; among the surviving
records with equal dates it keeps exactly the last occurrence in input order
(every output record survives the checks, comes from the input, and is the
last surviving input record for its date; output dates are distinct; every
surviving input record's date is represented).  In particular the spec's
example batch of a negative price, an oversized price and a missing date
validates to `[]`, and a two-record batch sharing a date validates to the
later record alone. -/
theorem C6_validate_rules :
    (∀ (records : List PriceRec), ∀ r ∈ validate records,
      survives r = true ∧ r ∈ records ∧
      ∀ d, r.date = some d → lastKept records d = some r) ∧
    (∀ (records : List PriceRec),
      ((validate records).map (fun r => r.date)).Nodup) ∧
    (∀ (records : List PriceRec), ∀ r ∈ records, survives r = true →
      ∃ q ∈ validate records, q.date = r.date) ∧
    validate [badPrice1, badPrice2, noDate] = [] ∧
    validate [dupA, dupB] = [dupB] :=
  ⟨validate_sound, validate_nodupDates, validate_covers, by decide, by decide⟩

/-- C6 witness: the survivor-representation part of the theorem applied to the
concrete duplicate-date batch. -/
theorem C6_witness :
    ∃ q ∈ validate [dupA, dupB], q.date = dupA.date :=
  C6_validate_rules.2.2.1 [dupA, dupB] dupA (by decide) (by decide)

/-! ## The orchestrator: `BackfillOrchestrator.run` (src/monitor/backfill.py)

The database collaborator (src/models/database.py) is modelled as the list of
`price_history` rows; `save_price_history` is SQLite `INSERT OR REPLACE` keyed
on the date column, and row order is irrelevant to every observation the
orchestrator makes (a date set and MIN/MAX).  The two provider blocks are
wrapped in `try/except` around the whole per-gap loop, so provider failure is
modelled by injected fetch functions returning `Except`; an error aborts the
remaining gaps of that provider block and appends one tagged message.  The
progress callback (a pure UI hook) is not modelled. -/

/-- `YFinanceClient.EARLIEST_DATE`: `date(2014, 9, 17)`, whose
`toordinal()` is 735493. -/
def EARLIEST_DATE : Nat := 735493

/-- The `price_history` table contents. -/
abbrev Db := List PriceRec

/-- `get_existing_dates` source: the dates of all rows. -/
def dbDates (db : Db) : List Nat := List.filterMap (fun r => r.date) db

/-- `INSERT OR REPLACE` of one record, keyed by the date column. -/
def dbUpsert (db : Db) (r : PriceRec) : Db :=
  if List.any db (fun q => q.date == r.date) then
    List.map (fun q => if q.date == r.date then r else q) db
  else db ++ [r]

/-- `Database.save_price_history(records)`. -/
def dbSave (db : Db) (records : List PriceRec) : Db :=
  records.foldl dbUpsert db

/-- `Database.get_price_date_range()`: `(MIN(date), MAX(date))`. -/
def dbDateRange (db : Db) : Option Nat × Option Nat :=
  ((dbDates db).min?, (dbDates db).max?)

/-- The `BackfillResult` dataclass. -/
structure BackfillResult where
  dates_added : Nat
  date_range : Option Nat × Option Nat
  sources_used : List String
  gaps_remaining : List (Nat × Nat)
  errors : List String
deriving DecidableEq

/-- The two fallible provider fetchers used by `run`, injected so that an
exception raised inside a provider block is explicit. -/
structure RunEnv where
  yfFetch : Nat → Nat → Except String (List PriceRec)
  csvFetch : Nat → Nat → Except String (List PriceRec)

/-- State mutated by the provider loops of `run`. -/
structure RunState where
  db : Db
  added : Nat
  existing : List Nat
  sources : List String
deriving DecidableEq

/-- `existing.update(dates)`: set union. -/
def insertAll (ex : List Nat) (ds : List Nat) : List Nat :=
  ds.foldl (fun e d => if d ∈ e then e else e ++ [d]) ex

/-- One iteration of the yfinance loop in `run`: gaps that end before
`EARLIEST_DATE` are skipped; otherwise the fetch start is clamped to
`EARLIEST_DATE`, the records are validated, saved, and the in-memory existing
set and source list are updated. -/
def yfGapStep (env : RunEnv) (st : RunState) (g : Nat × Nat) :
    Except String RunState :=
  if g.2 < EARLIEST_DATE then Except.ok st
  else
    match env.yfFetch (max g.1 EARLIEST_DATE) g.2 with
    | Except.error e => Except.error e
    | Except.ok records =>
      if records.isEmpty then Except.ok st
      else
        let valid := validate records
        if valid.isEmpty then Except.ok st
        else Except.ok
          { db := dbSave st.db valid
            added := st.added + valid.length
            existing := insertAll st.existing
              (List.filterMap (fun r => r.date) valid)
            sources :=
              if "yfinance" ∈ st.sources then st.sources
              else st.sources ++ ["yfinance"] }

/-- One iteration of the CSV loop in `run`: gaps that start at or after
`EARLIEST_DATE` are skipped (yfinance handled them); otherwise the fetch end is
clamped to the day before `EARLIEST_DATE`, records for already-present dates
are filtered out, the rest are validated and saved. -/
def csvGapStep (env : RunEnv) (st : RunState) (g : Nat × Nat) :
    Except String RunState :=
  if EARLIEST_DATE ≤ g.1 then Except.ok st
  else
    match env.csvFetch g.1 (min g.2 (EARLIEST_DATE - 1)) with
    | Except.error e => Except.error e
    | Except.ok records =>
      if records.isEmpty then Except.ok st
      else
        let newRecords := records.filter (fun r =>
          match r.date with
          | some d => decide (d ∉ st.existing)
          | none => true)
        let valid := validate newRecords
        if valid.isEmpty then Except.ok st
        else Except.ok
          { db := dbSave st.db valid
            added := st.added + valid.length
            existing := insertAll st.existing
              (List.filterMap (fun r => r.date) valid)
            sources :=
              if "csv" ∈ st.sources then st.sources
              else st.sources ++ ["csv"] }

/-- One provider block of `run`: the `try` wraps the whole per-gap loop, so
the first exception abandons the remaining gaps of this provider and appends
one tagged error message. -/
def runProvider (step : RunState → (Nat × Nat) → Except String RunState)
    (tag : String) : List (Nat × Nat) → RunState → RunState × List String
  | [], st => (st, [])
  | g :: gs, st =>
    match step st g with
    | Except.error e => (st, [tag ++ e])
    | Except.ok st2 => runProvider step tag gs st2

/-- `BackfillOrchestrator.run`: read the existing dates, detect gaps over
`[targetStart, today]` (Python `date(start_year, 1, 1)` to `date.today()`),
return early when there are none, otherwise walk the yfinance block and then
the CSV block over the detected gaps, re-read the dates and re-detect the
remaining gaps, and assemble the result. -/
def run (env : RunEnv) (db0 : Db) (targetStart today : Nat) :
    BackfillResult × Db :=
  let existing0 := dbDates db0
  let gaps := getGaps targetStart today (fun d => existing0.contains d)
  if gaps.isEmpty then
    (⟨0, dbDateRange db0, [], [], []⟩, db0)
  else
    let st0 : RunState := ⟨db0, 0, existing0, []⟩
    let p1 := runProvider (yfGapStep env) "yfinance backfill failed: " gaps st0
    let p2 := runProvider (csvGapStep env) "CSV backfill failed: " gaps p1.1
    let existing2 := dbDates p2.1.db
    let remaining := getGaps targetStart today (fun d => existing2.contains d)
    (⟨p2.1.added, dbDateRange p2.1.db, p2.1.sources, remaining,
      p1.2 ++ p2.2⟩, p2.1.db)

theorem yfGapStep_allFail (csvF : Nat → Nat → Except String (List PriceRec))
    (eY : String) (st : RunState) (g : Nat × Nat) :
    yfGapStep ⟨fun _ _ => Except.error eY, csvF⟩ st g =
      if g.2 < EARLIEST_DATE then Except.ok st else Except.error eY := by
  unfold yfGapStep
  by_cases hg : g.2 < EARLIEST_DATE
  · rw [if_pos hg]
  · rw [if_neg hg]

theorem csvGapStep_allFail (yfF : Nat → Nat → Except String (List PriceRec))
    (eC : String) (st : RunState) (g : Nat × Nat) :
    csvGapStep ⟨yfF, fun _ _ => Except.error eC⟩ st g =
      if EARLIEST_DATE ≤ g.1 then Except.ok st else Except.error eC := by
  unfold csvGapStep
  by_cases hg : EARLIEST_DATE ≤ g.1
  · rw [if_pos hg]
  · rw [if_neg hg]

theorem runProvider_yf_allFail (csvF : Nat → Nat → Except String (List PriceRec))
    (eY tag : String) :
    ∀ (gaps : List (Nat × Nat)) (st : RunState),
      runProvider (yfGapStep ⟨fun _ _ => Except.error eY, csvF⟩) tag gaps st =
        (st, if gaps.any (fun g => decide (EARLIEST_DATE ≤ g.2))
          then [tag ++ eY] else []) := by
  intro gaps
  induction gaps with
  | nil =>
    intro st
    rfl
  | cons g gs ih =>
    intro st
    simp only [runProvider, yfGapStep_allFail, List.any_cons]
    by_cases hg : g.2 < EARLIEST_DATE
    · have hd : decide (EARLIEST_DATE ≤ g.2) = false :=
        decide_eq_false_iff_not.mpr (by omega)
      rw [if_pos hg]
      simp only [hd, Bool.false_or]
      exact ih st
    · have hd : decide (EARLIEST_DATE ≤ g.2) = true :=
        decide_eq_true_eq.mpr (by omega)
      rw [if_neg hg]
      simp only [hd, Bool.true_or]
      rfl

theorem runProvider_csv_allFail (yfF : Nat → Nat → Except String (List PriceRec))
    (eC tag : String) :
    ∀ (gaps : List (Nat × Nat)) (st : RunState),
      runProvider (csvGapStep ⟨yfF, fun _ _ => Except.error eC⟩) tag gaps st =
        (st, if gaps.any (fun g => decide (g.1 < EARLIEST_DATE))
          then [tag ++ eC] else []) := by
  intro gaps
  induction gaps with
  | nil =>
    intro st
    rfl
  | cons g gs ih =>
    intro st
    simp only [runProvider, csvGapStep_allFail, List.any_cons]
    by_cases hg : EARLIEST_DATE ≤ g.1
    · have hd : decide (g.1 < EARLIEST_DATE) = false :=
        decide_eq_false_iff_not.mpr (by omega)
      rw [if_pos hg]
      simp only [hd, Bool.false_or]
      exact ih st
    · have hd : decide (g.1 < EARLIEST_DATE) = true :=
        decide_eq_true_eq.mpr (by omega)
      rw [if_neg hg]
      simp only [hd, Bool.true_or]
      rfl

/-- C4: `run` is a total function into `BackfillResult` (provider failures are
values, never escaping exceptions), and when every provider fails it returns
`dates_added = 0`, the database untouched, `gaps_remaining` equal to the
originally detected gaps, and one tagged error entry for every provider that
was actually attempted (a provider whose coverage intersects no gap is never
attempted and records no error). -/
theorem C4_run_total_failure (db0 : Db) (ts today : Nat) (eY eC : String) :
    run ⟨fun _ _ => Except.error eY, fun _ _ => Except.error eC⟩ db0 ts today =
      (⟨0, dbDateRange db0, [],
        getGaps ts today (fun d => (dbDates db0).contains d),
        (if (getGaps ts today (fun d => (dbDates db0).contains d)).any
            (fun g => decide (EARLIEST_DATE ≤ g.2))
          then ["yfinance backfill failed: " ++ eY] else []) ++
        (if (getGaps ts today (fun d => (dbDates db0).contains d)).any
            (fun g => decide (g.1 < EARLIEST_DATE))
          then ["CSV backfill failed: " ++ eC] else [])⟩, db0) := by
  unfold run
  by_cases hgaps :
      (getGaps ts today (fun d => (dbDates db0).contains d)).isEmpty = true
  · rw [if_pos hgaps]
    have he : getGaps ts today (fun d => (dbDates db0).contains d) = [] :=
      List.isEmpty_iff.mp hgaps
    rw [he]
    rfl
  · rw [if_neg hgaps]
    simp only [runProvider_yf_allFail, runProvider_csv_allFail]

/-- Database fixture for the C3 counterexample: only the day
`EARLIEST_DATE + 4` is present, splitting the range into two gaps that both
lie inside yfinance coverage. -/
def cexDb : Db := [⟨some (EARLIEST_DATE + 4), 50⟩]

/-- Valid records the yfinance fixture would return for the second gap. -/
def cexYfRecs : List PriceRec :=
  [⟨some (EARLIEST_DATE + 5), 60⟩, ⟨some (EARLIEST_DATE + 6), 61⟩,
   ⟨some (EARLIEST_DATE + 7), 62⟩]

/-- yfinance fixture: raises on the first gap (fetch start `EARLIEST_DATE`)
and would return three valid records for any other fetch. -/
def cexYf : Nat → Nat → Except String (List PriceRec) := fun s _ =>
  if s = EARLIEST_DATE then Except.error "boom" else Except.ok cexYfRecs

/-- Environment for the C3 counterexample. -/
def cexEnv : RunEnv := ⟨cexYf, fun _ _ => Except.ok []⟩

/-- C3 counterexample: the yfinance failure on the first gap is recorded as a
tagged error, but processing does NOT continue with the remaining gaps of that
provider: the second gap `(EARLIEST_DATE + 5, EARLIEST_DATE + 9)` is
abandoned (it stays in `gaps_remaining` and `dates_added = 0`) even though the
provider would have returned three records for it that validate unchanged —
the `try/except` wraps the whole per-gap loop, not a single iteration. -/
theorem C3_counterexample :
    (run cexEnv cexDb EARLIEST_DATE (EARLIEST_DATE + 9)).1.errors =
      ["yfinance backfill failed: boom"] ∧
    (run cexEnv cexDb EARLIEST_DATE (EARLIEST_DATE + 9)).1.dates_added = 0 ∧
    (run cexEnv cexDb EARLIEST_DATE (EARLIEST_DATE + 9)).1.gaps_remaining =
      [(EARLIEST_DATE, EARLIEST_DATE + 3),
       (EARLIEST_DATE + 5, EARLIEST_DATE + 9)] ∧
    (cexYf (EARLIEST_DATE + 5) (EARLIEST_DATE + 9)).toOption =
      some cexYfRecs ∧
    validate cexYfRecs = cexYfRecs := by
  decide

/-- C3 (amended): a failure of a provider while processing a gap is recorded
as a provider-tagged message in the result's errors and abandons that
provider's remaining gaps, but processing continues with the remaining
providers: when the yfinance source fails, the run equals a run in which only
the CSV block executed (over all detected gaps, from the initial state), with
the yfinance error message prepended exactly when yfinance was attempted — so
the CSV seed source is still tried over the gaps it covers and can still add
records. -/
theorem C3_provider_failure_amended (db0 : Db) (ts today : Nat)
    (csvF : Nat → Nat → Except String (List PriceRec)) (eY : String)
    (hne : (getGaps ts today (fun d => (dbDates db0).contains d)).isEmpty
      = false) :
    run ⟨fun _ _ => Except.error eY, csvF⟩ db0 ts today =
      (let gaps := getGaps ts today (fun d => (dbDates db0).contains d)
       let p2 := runProvider (csvGapStep ⟨fun _ _ => Except.error eY, csvF⟩)
         ("CSV backfill failed: ") gaps ⟨db0, 0, dbDates db0, []⟩
       (⟨p2.1.added, dbDateRange p2.1.db, p2.1.sources,
         getGaps ts today (fun d => (dbDates p2.1.db).contains d),
         (if gaps.any (fun g => decide (EARLIEST_DATE ≤ g.2))
           then ["yfinance backfill failed: " ++ eY] else []) ++ p2.2⟩,
        p2.1.db)) := by
  unfold run
  rw [if_neg (by rw [hne]; exact Bool.false_ne_true)]
  simp only [runProvider_yf_allFail]

/-- CSV seed records covering the first three days of the witness range. -/
def wCsvRecs : List PriceRec :=
  [⟨some (EARLIEST_DATE - 10), 100⟩, ⟨some (EARLIEST_DATE - 9), 101⟩,
   ⟨some (EARLIEST_DATE - 8), 102⟩]

/-- CSV fixture for the C3 witness: always returns the seed records. -/
def wCsvF : Nat → Nat → Except String (List PriceRec) :=
  fun _ _ => Except.ok wCsvRecs

/-- C3 witness: the amended theorem applied to an empty database over a range
straddling `EARLIEST_DATE`, with failing yfinance and a CSV source holding
three records; the CSV block still runs and adds the three records while the
yfinance failure is the sole recorded error. -/
theorem C3_witness :
    (run ⟨fun _ _ => Except.error "boom", wCsvF⟩ ([] : Db)
        (EARLIEST_DATE - 10) (EARLIEST_DATE + 5) =
      (let gaps := getGaps (EARLIEST_DATE - 10) (EARLIEST_DATE + 5)
         (fun d => (dbDates ([] : Db)).contains d)
       let p2 := runProvider
         (csvGapStep ⟨fun _ _ => Except.error "boom", wCsvF⟩)
         ("CSV backfill failed: ") gaps ⟨([] : Db), 0, dbDates ([] : Db), []⟩
       (⟨p2.1.added, dbDateRange p2.1.db, p2.1.sources,
         getGaps (EARLIEST_DATE - 10) (EARLIEST_DATE + 5)
           (fun d => (dbDates p2.1.db).contains d),
         (if gaps.any (fun g => decide (EARLIEST_DATE ≤ g.2))
           then ["yfinance backfill failed: " ++ "boom"] else []) ++ p2.2⟩,
        p2.1.db))) ∧
    (run ⟨fun _ _ => Except.error "boom", wCsvF⟩ ([] : Db)
        (EARLIEST_DATE - 10) (EARLIEST_DATE + 5)).1.dates_added = 3 ∧
    (run ⟨fun _ _ => Except.error "boom", wCsvF⟩ ([] : Db)
        (EARLIEST_DATE - 10) (EARLIEST_DATE + 5)).1.sources_used = ["csv"] ∧
    (run ⟨fun _ _ => Except.error "boom", wCsvF⟩ ([] : Db)
        (EARLIEST_DATE - 10) (EARLIEST_DATE + 5)).1.errors =
      ["yfinance backfill failed: boom"] :=
  ⟨C3_provider_failure_amended ([] : Db) (EARLIEST_DATE - 10)
      (EARLIEST_DATE + 5) wCsvF "boom" (by decide),
   by decide, by decide, by decide⟩

/-! ## Idempotence machinery (C5): deterministic, data-backed providers -/

/-- A deterministic, data-backed provider: fetching `[s, e]` returns exactly
the records of a fixed data set whose date lies in `[s, e]`, and never
raises. -/
def dataFetch (data : List PriceRec) :
    Nat → Nat → Except String (List PriceRec) :=
  fun s e => Except.ok (data.filter (fun r =>
    match r.date with
    | some d => decide (s ≤ d ∧ d ≤ e)
    | none => false))

/-- The in-memory existing set only ever holds persisted dates. -/
def StExInv (st : RunState) : Prop := ∀ d ∈ st.existing, d ∈ dbDates st.db

theorem contains_true_iff (l : List Nat) (d : Nat) :
    l.contains d = true ↔ d ∈ l := List.elem_iff

theorem contains_false_iff (l : List Nat) (d : Nat) :
    l.contains d = false ↔ d ∉ l := by
  constructor
  · intro h hm
    rw [(contains_true_iff l d).mpr hm] at h
    exact Bool.noConfusion h
  · intro h
    cases hc : l.contains d
    · rfl
    · exact absurd ((contains_true_iff l d).mp hc) h

theorem dbUpsert_mono (db : Db) (r : PriceRec) (d : Nat)
    (h : d ∈ dbDates db) : d ∈ dbDates (dbUpsert db r) := by
  rw [dbDates, List.mem_filterMap] at h
  obtain ⟨q, hq, hqd⟩ := h
  unfold dbUpsert
  by_cases hany : List.any db (fun q => q.date == r.date) = true
  · rw [if_pos hany]
    rw [dbDates, List.mem_filterMap]
    by_cases hqr : (q.date == r.date) = true
    · refine ⟨r, ?_, ?_⟩
      · rw [List.mem_map]
        exact ⟨q, hq, by rw [if_pos hqr]⟩
      · have heq : q.date = r.date := by simpa using hqr
        rw [← heq, hqd]
    · refine ⟨q, ?_, hqd⟩
      rw [List.mem_map]
      exact ⟨q, hq, by rw [if_neg hqr]⟩
  · rw [if_neg hany]
    rw [dbDates, List.mem_filterMap]
    exact ⟨q, List.mem_append_left _ hq, hqd⟩

theorem dbUpsert_self (db : Db) (r : PriceRec) (d : Nat)
    (h : r.date = some d) : d ∈ dbDates (dbUpsert db r) := by
  unfold dbUpsert
  by_cases hany : List.any db (fun q => q.date == r.date) = true
  · rw [if_pos hany]
    rw [List.any_eq_true] at hany
    obtain ⟨q, hq, hqr⟩ := hany
    rw [dbDates, List.mem_filterMap]
    refine ⟨r, ?_, h⟩
    rw [List.mem_map]
    exact ⟨q, hq, by rw [if_pos hqr]⟩
  · rw [if_neg hany]
    rw [dbDates, List.mem_filterMap]
    exact ⟨r, List.mem_append_right _ (List.mem_singleton.mpr rfl), h⟩

theorem dbSave_mono :
    ∀ (records : List PriceRec) (db : Db) (d : Nat),
      d ∈ dbDates db → d ∈ dbDates (dbSave db records) := by
  intro records
  induction records with
  | nil =>
    intro db d h
    exact h
  | cons r rest ih =>
    intro db d h
    exact ih (dbUpsert db r) d (dbUpsert_mono db r d h)

theorem dbSave_mem :
    ∀ (records : List PriceRec) (db : Db) (r : PriceRec) (d : Nat),
      r ∈ records → r.date = some d → d ∈ dbDates (dbSave db records) := by
  intro records
  induction records with
  | nil =>
    intro db r d h
    exact absurd h (List.not_mem_nil r)
  | cons r0 rest ih =>
    intro db r d hmem hd
    rw [List.mem_cons] at hmem
    rcases hmem with hmem | hmem
    · subst hmem
      exact dbSave_mono rest (dbUpsert db r) d (dbUpsert_self db r d hd)
    · exact ih (dbUpsert db r0) r d hmem hd

theorem insertAll_mem :
    ∀ (ds ex : List Nat) (d : Nat), d ∈ insertAll ex ds → d ∈ ex ∨ d ∈ ds := by
  intro ds
  induction ds with
  | nil =>
    intro ex d h
    exact Or.inl h
  | cons d0 rest ih =>
    intro ex d h
    have h2 := ih (if d0 ∈ ex then ex else ex ++ [d0]) d h
    rcases h2 with h2 | h2
    · by_cases hd0 : d0 ∈ ex
      · rw [if_pos hd0] at h2
        exact Or.inl h2
      · rw [if_neg hd0] at h2
        rw [List.mem_append, List.mem_singleton] at h2
        rcases h2 with h2 | h2
        · exact Or.inl h2
        · refine Or.inr ?_
          rw [h2]
          exact List.mem_cons_self d0 rest
    · exact Or.inr (List.mem_cons_of_mem d0 h2)

theorem yfStep_dataFetch (yfData : List PriceRec)
    (csvF : Nat → Nat → Except String (List PriceRec))
    (st : RunState) (g : Nat × Nat) :
    ∃ st2, yfGapStep ⟨dataFetch yfData, csvF⟩ st g = Except.ok st2 ∧
      (∀ d, d ∈ dbDates st.db → d ∈ dbDates st2.db) ∧
      (StExInv st → StExInv st2) ∧
      (∀ r ∈ yfData, survives r = true → ∀ d, r.date = some d →
        EARLIEST_DATE ≤ g.2 → max g.1 EARLIEST_DATE ≤ d → d ≤ g.2 →
        d ∈ dbDates st2.db) := by
  unfold yfGapStep
  by_cases hg : g.2 < EARLIEST_DATE
  · rw [if_pos hg]
    exact ⟨st, rfl, fun d h => h, fun h => h,
      fun r hr hs d hd hE => absurd hE (by omega)⟩
  · rw [if_neg hg]
    dsimp only [dataFetch]
    have hmemrec : ∀ r ∈ yfData, ∀ d, r.date = some d →
        max g.1 EARLIEST_DATE ≤ d → d ≤ g.2 →
        r ∈ yfData.filter (fun r =>
          match r.date with
          | some d => decide (max g.1 EARLIEST_DATE ≤ d ∧ d ≤ g.2)
          | none => false) := by
      intro r hr d hd h1 h2
      refine List.mem_filter.mpr ⟨hr, ?_⟩
      rw [hd]
      exact decide_eq_true_eq.mpr ⟨h1, h2⟩
    by_cases hemp : (yfData.filter (fun r =>
        match r.date with
        | some d => decide (max g.1 EARLIEST_DATE ≤ d ∧ d ≤ g.2)
        | none => false)).isEmpty = true
    · rw [if_pos hemp]
      refine ⟨st, rfl, fun d h => h, fun h => h, ?_⟩
      intro r hr hs d hd hE h1 h2
      exfalso
      have hmem := hmemrec r hr d hd h1 h2
      rw [List.isEmpty_iff.mp hemp] at hmem
      exact List.not_mem_nil r hmem
    · rw [if_neg hemp]
      by_cases hv : (validate (yfData.filter (fun r =>
          match r.date with
          | some d => decide (max g.1 EARLIEST_DATE ≤ d ∧ d ≤ g.2)
          | none => false))).isEmpty = true
      · rw [if_pos hv]
        refine ⟨st, rfl, fun d h => h, fun h => h, ?_⟩
        intro r hr hs d hd hE h1 h2
        exfalso
        have hmem := hmemrec r hr d hd h1 h2
        obtain ⟨q, hq, _⟩ := validate_covers _ r hmem hs
        rw [List.isEmpty_iff.mp hv] at hq
        exact List.not_mem_nil q hq
      · rw [if_neg hv]
        refine ⟨_, rfl, ?_, ?_, ?_⟩
        · intro d h
          exact dbSave_mono _ st.db d h
        · intro hinv d hd
          rcases insertAll_mem _ st.existing d hd with hd | hd
          · exact dbSave_mono _ st.db d (hinv d hd)
          · rw [List.mem_filterMap] at hd
            obtain ⟨q, hq, hqd⟩ := hd
            exact dbSave_mem _ st.db q d hq hqd
        · intro r hr hs d hd hE h1 h2
          have hmem := hmemrec r hr d hd h1 h2
          obtain ⟨q, hq, hqd⟩ := validate_covers _ r hmem hs
          rw [hd] at hqd
          exact dbSave_mem _ st.db q d hq hqd

theorem csvStep_dataFetch (csvData : List PriceRec)
    (yfF : Nat → Nat → Except String (List PriceRec))
    (st : RunState) (g : Nat × Nat) :
    ∃ st2, csvGapStep ⟨yfF, dataFetch csvData⟩ st g = Except.ok st2 ∧
      (∀ d, d ∈ dbDates st.db → d ∈ dbDates st2.db) ∧
      (StExInv st → StExInv st2) ∧
      (StExInv st → ∀ r ∈ csvData, survives r = true → ∀ d, r.date = some d →
        g.1 ≤ d → d ≤ min g.2 (EARLIEST_DATE - 1) →
        d ∈ dbDates st2.db) := by
  unfold csvGapStep
  by_cases hg : EARLIEST_DATE ≤ g.1
  · rw [if_pos hg]
    have hE1 : 1 ≤ EARLIEST_DATE := by decide
    exact ⟨st, rfl, fun d h => h, fun h => h,
      fun hinv r hr hs d hd h1 h2 => absurd h2 (by omega)⟩
  · rw [if_neg hg]
    dsimp only [dataFetch]
    have hmemrec : ∀ r ∈ csvData, ∀ d, r.date = some d →
        g.1 ≤ d → d ≤ min g.2 (EARLIEST_DATE - 1) →
        r ∈ csvData.filter (fun r =>
          match r.date with
          | some d => decide (g.1 ≤ d ∧ d ≤ min g.2 (EARLIEST_DATE - 1))
          | none => false) := by
      intro r hr d hd h1 h2
      refine List.mem_filter.mpr ⟨hr, ?_⟩
      rw [hd]
      exact decide_eq_true_eq.mpr ⟨h1, h2⟩
    by_cases hemp : (csvData.filter (fun r =>
        match r.date with
        | some d => decide (g.1 ≤ d ∧ d ≤ min g.2 (EARLIEST_DATE - 1))
        | none => false)).isEmpty = true
    · rw [if_pos hemp]
      refine ⟨st, rfl, fun d h => h, fun h => h, ?_⟩
      intro hinv r hr hs d hd h1 h2
      exfalso
      have hmem := hmemrec r hr d hd h1 h2
      rw [List.isEmpty_iff.mp hemp] at hmem
      exact List.not_mem_nil r hmem
    · rw [if_neg hemp]
      by_cases hv : (validate ((csvData.filter (fun r =>
          match r.date with
          | some d => decide (g.1 ≤ d ∧ d ≤ min g.2 (EARLIEST_DATE - 1))
          | none => false)).filter (fun r =>
            match r.date with
            | some d => decide (d ∉ st.existing)
            | none => true))).isEmpty = true
      · rw [if_pos hv]
        refine ⟨st, rfl, fun d h => h, fun h => h, ?_⟩
        intro hinv r hr hs d hd h1 h2
        by_cases hex : d ∈ st.existing
        · exact hinv d hex
        · exfalso
          have hmem := hmemrec r hr d hd h1 h2
          have hmem2 : r ∈ (csvData.filter (fun r =>
              match r.date with
              | some d => decide (g.1 ≤ d ∧ d ≤ min g.2 (EARLIEST_DATE - 1))
              | none => false)).filter (fun r =>
                match r.date with
                | some d => decide (d ∉ st.existing)
                | none => true) := by
            refine List.mem_filter.mpr ⟨hmem, ?_⟩
            rw [hd]
            exact decide_eq_true_eq.mpr hex
          obtain ⟨q, hq, _⟩ := validate_covers _ r hmem2 hs
          rw [List.isEmpty_iff.mp hv] at hq
          exact List.not_mem_nil q hq
      · rw [if_neg hv]
        refine ⟨_, rfl, ?_, ?_, ?_⟩
        · intro d h
          exact dbSave_mono _ st.db d h
        · intro hinv d hd
          rcases insertAll_mem _ st.existing d hd with hd | hd
          · exact dbSave_mono _ st.db d (hinv d hd)
          · rw [List.mem_filterMap] at hd
            obtain ⟨q, hq, hqd⟩ := hd
            exact dbSave_mem _ st.db q d hq hqd
        · intro hinv r hr hs d hd h1 h2
          by_cases hex : d ∈ st.existing
          · exact dbSave_mono _ st.db d (hinv d hex)
          · have hmem := hmemrec r hr d hd h1 h2
            have hmem2 : r ∈ (csvData.filter (fun r =>
                match r.date with
                | some d => decide (g.1 ≤ d ∧ d ≤ min g.2 (EARLIEST_DATE - 1))
                | none => false)).filter (fun r =>
                  match r.date with
                  | some d => decide (d ∉ st.existing)
                  | none => true) := by
              refine List.mem_filter.mpr ⟨hmem, ?_⟩
              rw [hd]
              exact decide_eq_true_eq.mpr hex
            obtain ⟨q, hq, hqd⟩ := validate_covers _ r hmem2 hs
            rw [hd] at hqd
            exact dbSave_mem _ st.db q d hq hqd

theorem runProvider_yf_dataFetch (yfData : List PriceRec)
    (csvF : Nat → Nat → Except String (List PriceRec)) (tag : String) :
    ∀ (gaps : List (Nat × Nat)) (st : RunState),
      (runProvider (yfGapStep ⟨dataFetch yfData, csvF⟩) tag gaps st).2 = [] ∧
      (∀ d, d ∈ dbDates st.db → d ∈ dbDates
        (runProvider (yfGapStep ⟨dataFetch yfData, csvF⟩) tag gaps st).1.db) ∧
      (StExInv st → StExInv
        (runProvider (yfGapStep ⟨dataFetch yfData, csvF⟩) tag gaps st).1) ∧
      (∀ g ∈ gaps, ∀ r ∈ yfData, survives r = true → ∀ d, r.date = some d →
        EARLIEST_DATE ≤ g.2 → max g.1 EARLIEST_DATE ≤ d → d ≤ g.2 →
        d ∈ dbDates
          (runProvider (yfGapStep ⟨dataFetch yfData, csvF⟩) tag gaps st).1.db)
      := by
  intro gaps
  induction gaps with
  | nil =>
    intro st
    refine ⟨rfl, fun d h => h, fun h => h, ?_⟩
    intro g hg
    exact absurd hg (List.not_mem_nil g)
  | cons g0 gs ih =>
    intro st
    obtain ⟨st2, hstep, hmono, hinv, hpost⟩ := yfStep_dataFetch yfData csvF st g0
    have hrp : runProvider (yfGapStep ⟨dataFetch yfData, csvF⟩) tag
        (g0 :: gs) st =
        runProvider (yfGapStep ⟨dataFetch yfData, csvF⟩) tag gs st2 := by
      simp only [runProvider, hstep]
    rw [hrp]
    obtain ⟨ih1, ih2, ih3, ih4⟩ := ih st2
    refine ⟨ih1, fun d h => ih2 d (hmono d h), fun h => ih3 (hinv h), ?_⟩
    intro g hg r hr hs d hd hE h1 h2
    rw [List.mem_cons] at hg
    rcases hg with hg | hg
    · subst hg
      exact ih2 d (hpost r hr hs d hd hE h1 h2)
    · exact ih4 g hg r hr hs d hd hE h1 h2

theorem runProvider_csv_dataFetch (csvData : List PriceRec)
    (yfF : Nat → Nat → Except String (List PriceRec)) (tag : String) :
    ∀ (gaps : List (Nat × Nat)) (st : RunState),
      (runProvider (csvGapStep ⟨yfF, dataFetch csvData⟩) tag gaps st).2 = [] ∧
      (∀ d, d ∈ dbDates st.db → d ∈ dbDates
        (runProvider (csvGapStep ⟨yfF, dataFetch csvData⟩) tag gaps st).1.db) ∧
      (StExInv st → StExInv
        (runProvider (csvGapStep ⟨yfF, dataFetch csvData⟩) tag gaps st).1) ∧
      (StExInv st → ∀ g ∈ gaps, ∀ r ∈ csvData, survives r = true →
        ∀ d, r.date = some d → g.1 ≤ d → d ≤ min g.2 (EARLIEST_DATE - 1) →
        d ∈ dbDates
          (runProvider (csvGapStep ⟨yfF, dataFetch csvData⟩) tag gaps st).1.db)
      := by
  intro gaps
  induction gaps with
  | nil =>
    intro st
    refine ⟨rfl, fun d h => h, fun h => h, ?_⟩
    intro hinv g hg
    exact absurd hg (List.not_mem_nil g)
  | cons g0 gs ih =>
    intro st
    obtain ⟨st2, hstep, hmono, hinv, hpost⟩ := csvStep_dataFetch csvData yfF st g0
    have hrp : runProvider (csvGapStep ⟨yfF, dataFetch csvData⟩) tag
        (g0 :: gs) st =
        runProvider (csvGapStep ⟨yfF, dataFetch csvData⟩) tag gs st2 := by
      simp only [runProvider, hstep]
    rw [hrp]
    obtain ⟨ih1, ih2, ih3, ih4⟩ := ih st2
    refine ⟨ih1, fun d h => ih2 d (hmono d h), fun h => ih3 (hinv h), ?_⟩
    intro hst g hg r hr hs d hd h1 h2
    rw [List.mem_cons] at hg
    rcases hg with hg | hg
    · subst hg
      exact ih2 d (hpost hst r hr hs d hd h1 h2)
    · exact ih4 (hinv hst) g hg r hr hs d hd h1 h2

theorem runProvider_noop
    (step : RunState → (Nat × Nat) → Except String RunState) (tag : String) :
    ∀ (gaps : List (Nat × Nat)) (st : RunState),
      (∀ g ∈ gaps, step st g = Except.ok st) →
      runProvider step tag gaps st = (st, []) := by
  intro gaps
  induction gaps with
  | nil =>
    intro st h
    rfl
  | cons g0 gs ih =>
    intro st h
    have hstep := h g0 (List.mem_cons_self g0 gs)
    simp only [runProvider, hstep]
    exact ih st (fun g hg => h g (List.mem_cons_of_mem g0 hg))

theorem yfStep_noop (yfData : List PriceRec)
    (csvF : Nat → Nat → Except String (List PriceRec))
    (st : RunState) (g : Nat × Nat)
    (h : ∀ r ∈ yfData, survives r = true → ∀ d, r.date = some d →
      max g.1 EARLIEST_DATE ≤ d → d ≤ g.2 → False) :
    yfGapStep ⟨dataFetch yfData, csvF⟩ st g = Except.ok st := by
  unfold yfGapStep
  by_cases hg : g.2 < EARLIEST_DATE
  · rw [if_pos hg]
  · rw [if_neg hg]
    dsimp only [dataFetch]
    have hvalid : validate (yfData.filter (fun r =>
        match r.date with
        | some d => decide (max g.1 EARLIEST_DATE ≤ d ∧ d ≤ g.2)
        | none => false)) = [] := by
      cases hval : validate (yfData.filter (fun r =>
          match r.date with
          | some d => decide (max g.1 EARLIEST_DATE ≤ d ∧ d ≤ g.2)
          | none => false)) with
      | nil => rfl
      | cons r2 rest =>
        exfalso
        have hr2 : r2 ∈ validate (yfData.filter (fun r =>
            match r.date with
            | some d => decide (max g.1 EARLIEST_DATE ≤ d ∧ d ≤ g.2)
            | none => false)) := by
          rw [hval]
          exact List.mem_cons_self r2 rest
        obtain ⟨hs2, hmem2, _⟩ := validate_sound _ r2 hr2
        rw [List.mem_filter] at hmem2
        obtain ⟨hr2data, hpred⟩ := hmem2
        have hds : r2.date.isSome = true := by
          simp only [survives, Bool.and_eq_true] at hs2
          exact hs2.2
        obtain ⟨d, hd⟩ := Option.isSome_iff_exists.1 hds
        rw [hd] at hpred
        have hb : max g.1 EARLIEST_DATE ≤ d ∧ d ≤ g.2 := by
          simpa using hpred
        exact h r2 hr2data hs2 d hd hb.1 hb.2
    by_cases hemp : (yfData.filter (fun r =>
        match r.date with
        | some d => decide (max g.1 EARLIEST_DATE ≤ d ∧ d ≤ g.2)
        | none => false)).isEmpty = true
    · rw [if_pos hemp]
    · rw [if_neg hemp]
      rw [hvalid]
      rfl

theorem csvStep_noop (csvData : List PriceRec)
    (yfF : Nat → Nat → Except String (List PriceRec))
    (st : RunState) (g : Nat × Nat)
    (h : ∀ r ∈ csvData, survives r = true → ∀ d, r.date = some d →
      g.1 ≤ d → d ≤ min g.2 (EARLIEST_DATE - 1) → d ∈ st.existing) :
    csvGapStep ⟨yfF, dataFetch csvData⟩ st g = Except.ok st := by
  unfold csvGapStep
  by_cases hg : EARLIEST_DATE ≤ g.1
  · rw [if_pos hg]
  · rw [if_neg hg]
    dsimp only [dataFetch]
    have hvalid : validate ((csvData.filter (fun r =>
        match r.date with
        | some d => decide (g.1 ≤ d ∧ d ≤ min g.2 (EARLIEST_DATE - 1))
        | none => false)).filter (fun r =>
          match r.date with
          | some d => decide (d ∉ st.existing)
          | none => true)) = [] := by
      cases hval : validate ((csvData.filter (fun r =>
          match r.date with
          | some d => decide (g.1 ≤ d ∧ d ≤ min g.2 (EARLIEST_DATE - 1))
          | none => false)).filter (fun r =>
            match r.date with
            | some d => decide (d ∉ st.existing)
            | none => true)) with
      | nil => rfl
      | cons r2 rest =>
        exfalso
        have hr2 : r2 ∈ validate ((csvData.filter (fun r =>
            match r.date with
            | some d => decide (g.1 ≤ d ∧ d ≤ min g.2 (EARLIEST_DATE - 1))
            | none => false)).filter (fun r =>
              match r.date with
              | some d => decide (d ∉ st.existing)
              | none => true)) := by
          rw [hval]
          exact List.mem_cons_self r2 rest
        obtain ⟨hs2, hmem2, _⟩ := validate_sound _ r2 hr2
        rw [List.mem_filter] at hmem2
        obtain ⟨hmem1, hpred2⟩ := hmem2
        rw [List.mem_filter] at hmem1
        obtain ⟨hr2data, hpred1⟩ := hmem1
        have hds : r2.date.isSome = true := by
          simp only [survives, Bool.and_eq_true] at hs2
          exact hs2.2
        obtain ⟨d, hd⟩ := Option.isSome_iff_exists.1 hds
        rw [hd] at hpred1 hpred2
        have hb : g.1 ≤ d ∧ d ≤ min g.2 (EARLIEST_DATE - 1) := by
          simpa using hpred1
        have hnotin : d ∉ st.existing := by
          simpa using hpred2
        exact hnotin (h r2 hr2data hs2 d hd hb.1 hb.2)
    by_cases hemp : (csvData.filter (fun r =>
        match r.date with
        | some d => decide (g.1 ≤ d ∧ d ≤ min g.2 (EARLIEST_DATE - 1))
        | none => false)).isEmpty = true
    · rw [if_pos hemp]
    · rw [if_neg hemp]
      rw [hvalid]
      rfl

/-- The gap list `run` detects over a database state. -/
def gaps0 (db : Db) (ts today : Nat) : List (Nat × Nat) :=
  getGaps ts today (fun d => (dbDates db).contains d)

/-- The initial loop state of `run`. -/
def st0of (db : Db) : RunState := ⟨db, 0, dbDates db, []⟩

/-- The yfinance block of a run. -/
def yfP (env : RunEnv) (db : Db) (ts today : Nat) : RunState × List String :=
  runProvider (yfGapStep env) ("yfinance backfill failed: ")
    (gaps0 db ts today) (st0of db)

/-- The CSV block of a run, started from the yfinance block's final state. -/
def csvP (env : RunEnv) (db : Db) (ts today : Nat) : RunState × List String :=
  runProvider (csvGapStep env) ("CSV backfill failed: ")
    (gaps0 db ts today) (yfP env db ts today).1

/-- `run` split into its early-return and main path, with the pipeline stages
named. -/
theorem run_eq_split (env : RunEnv) (db0 : Db) (ts today : Nat) :
    run env db0 ts today =
      if (gaps0 db0 ts today).isEmpty = true
      then (⟨0, dbDateRange db0, [], [], []⟩, db0)
      else (⟨(csvP env db0 ts today).1.added,
        dbDateRange (csvP env db0 ts today).1.db,
        (csvP env db0 ts today).1.sources,
        gaps0 (csvP env db0 ts today).1.db ts today,
        (yfP env db0 ts today).2 ++ (csvP env db0 ts today).2⟩,
       (csvP env db0 ts today).1.db) := rfl

theorem run_gaps_remaining (env : RunEnv) (db0 : Db) (ts today : Nat) :
    (run env db0 ts today).1.gaps_remaining =
      gaps0 (run env db0 ts today).2 ts today := by
  rw [run_eq_split env db0 ts today]
  by_cases hg : (gaps0 db0 ts today).isEmpty = true
  · rw [if_pos hg]
    exact (List.isEmpty_iff.mp hg).symm
  · rw [if_neg hg]

theorem run_db_mono (yfData csvData : List PriceRec) (db0 : Db)
    (ts today : Nat) :
    ∀ d, d ∈ dbDates db0 →
      d ∈ dbDates (run ⟨dataFetch yfData, dataFetch csvData⟩ db0 ts today).2
      := by
  intro d h
  rw [run_eq_split]
  by_cases hg : (gaps0 db0 ts today).isEmpty = true
  · rw [if_pos hg]
    exact h
  · rw [if_neg hg]
    obtain ⟨_, hmono2, _, _⟩ := runProvider_csv_dataFetch csvData
      (dataFetch yfData) ("CSV backfill failed: ") (gaps0 db0 ts today)
      (yfP ⟨dataFetch yfData, dataFetch csvData⟩ db0 ts today).1
    obtain ⟨_, hmono1, _, _⟩ := runProvider_yf_dataFetch yfData
      (dataFetch csvData) ("yfinance backfill failed: ") (gaps0 db0 ts today)
      (st0of db0)
    exact hmono2 d (hmono1 d h)

/-- Any day of a gap detected after a run with data-backed providers carries
no unsaved provider data: a valid yfinance record at such a day (inside
yfinance coverage) or a valid CSV record (before yfinance coverage) would
already have been persisted by the first run. -/
theorem gap2_day_in_db1 (yfData csvData : List PriceRec) (db0 : Db)
    (ts today : Nat) (g1 g2 : Nat)
    (hg : (g1, g2) ∈ gaps0
      (run ⟨dataFetch yfData, dataFetch csvData⟩ db0 ts today).2 ts today)
    (r : PriceRec) (d : Nat) (hd : r.date = some d) (hs : survives r = true)
    (h1 : g1 ≤ d) (h2 : d ≤ g2) :
    (r ∈ yfData → EARLIEST_DATE ≤ d →
      d ∈ dbDates (run ⟨dataFetch yfData, dataFetch csvData⟩ db0 ts today).2) ∧
    (r ∈ csvData → d ≤ EARLIEST_DATE - 1 →
      d ∈ dbDates (run ⟨dataFetch yfData, dataFetch csvData⟩ db0 ts today).2)
    := by
  unfold gaps0 at hg
  obtain ⟨k1', k2', k3', k4', k5', k6'⟩ := (getGaps_mem_iff ts today
    (fun x => (dbDates (run ⟨dataFetch yfData, dataFetch csvData⟩
      db0 ts today).2).contains x) g1 g2).1 hg
  have hmiss0 : ∀ x, g1 ≤ x → x ≤ g2 →
      (fun y => (dbDates db0).contains y) x = false := by
    intro x hx1 hx2
    have hx := k4' x hx1 hx2
    have hxn : x ∉ dbDates (run ⟨dataFetch yfData, dataFetch csvData⟩
        db0 ts today).2 := (contains_false_iff _ x).mp hx
    exact (contains_false_iff _ x).mpr
      (fun hc => hxn (run_db_mono yfData csvData db0 ts today x hc))
  obtain ⟨p1, p2, p3, p4⟩ := runStartA_spec
    (fun y => (dbDates db0).contains y) ts (g1 - ts) g1 k1' (by omega)
    (hmiss0 g1 le_rfl (by omega))
  obtain ⟨q1, q2, q3, q4⟩ := runEndA_spec
    (fun y => (dbDates db0).contains y) today (today - g2) g2 k3' (by omega)
    (hmiss0 g2 (by omega) le_rfl)
  have huv : (runStartA (fun y => (dbDates db0).contains y) ts (g1 - ts) g1,
      runEndA (fun y => (dbDates db0).contains y) today (today - g2) g2) ∈
      gaps0 db0 ts today := by
    unfold gaps0
    refine (getGaps_mem_iff ts today _ _ _).2 ⟨p1, by omega, q2, ?_, p4, q4⟩
    intro x hx1 hx2
    by_cases hxa : x ≤ g1
    · exact p3 x hx1 hxa
    · by_cases hxb : x ≤ g2
      · exact hmiss0 x (by omega) hxb
      · exact q3 x (by omega) hx2
  have hne : (gaps0 db0 ts today).isEmpty = false := by
    cases hie : (gaps0 db0 ts today).isEmpty
    · rfl
    · exfalso
      rw [List.isEmpty_iff.mp hie] at huv
      exact List.not_mem_nil _ huv
  have hdb1eq : (run ⟨dataFetch yfData, dataFetch csvData⟩ db0 ts today).2 =
      (csvP ⟨dataFetch yfData, dataFetch csvData⟩ db0 ts today).1.db := by
    rw [run_eq_split]
    rw [if_neg (by rw [hne]; exact Bool.false_ne_true)]
  constructor
  · intro hr hEd
    obtain ⟨_, _, _, hyf4⟩ := runProvider_yf_dataFetch yfData
      (dataFetch csvData) ("yfinance backfill failed: ")
      (gaps0 db0 ts today) (st0of db0)
    have hd1 := hyf4 _ huv r hr hs d hd
      (le_trans hEd (le_trans h2 q1))
      (max_le (le_trans p2 h1) hEd) (le_trans h2 q1)
    obtain ⟨_, hcsvmono, _, _⟩ := runProvider_csv_dataFetch csvData
      (dataFetch yfData) ("CSV backfill failed: ")
      (gaps0 db0 ts today)
      (yfP ⟨dataFetch yfData, dataFetch csvData⟩ db0 ts today).1
    rw [hdb1eq]
    exact hcsvmono d hd1
  · intro hr hdE
    obtain ⟨_, _, hyfinv, _⟩ := runProvider_yf_dataFetch yfData
      (dataFetch csvData) ("yfinance backfill failed: ")
      (gaps0 db0 ts today) (st0of db0)
    obtain ⟨_, _, _, hcsv4⟩ := runProvider_csv_dataFetch csvData
      (dataFetch yfData) ("CSV backfill failed: ")
      (gaps0 db0 ts today)
      (yfP ⟨dataFetch yfData, dataFetch csvData⟩ db0 ts today).1
    have hd1 := hcsv4 (hyfinv (fun x hx => hx)) _ huv r hr hs d hd
      (le_trans p2 h1) (le_min (le_trans h2 q1) hdE)
    rw [hdb1eq]
    exact hd1

/-- C5: with deterministic, data-backed providers and a fixed current date,
running `run` a second time immediately after a first run (no new external
data between the runs) adds zero records and returns the same
`gaps_remaining` list as the first run. -/
theorem C5_run_idempotent (yfData csvData : List PriceRec) (db0 : Db)
    (ts today : Nat) :
    (run ⟨dataFetch yfData, dataFetch csvData⟩
      (run ⟨dataFetch yfData, dataFetch csvData⟩ db0 ts today).2
      ts today).1.dates_added = 0 ∧
    (run ⟨dataFetch yfData, dataFetch csvData⟩
      (run ⟨dataFetch yfData, dataFetch csvData⟩ db0 ts today).2
      ts today).1.gaps_remaining =
      (run ⟨dataFetch yfData, dataFetch csvData⟩ db0 ts today).1.gaps_remaining
    := by
  have hgr1 := run_gaps_remaining ⟨dataFetch yfData, dataFetch csvData⟩
    db0 ts today
  have hyfnoop : ∀ g ∈ gaps0
      (run ⟨dataFetch yfData, dataFetch csvData⟩ db0 ts today).2 ts today,
      yfGapStep ⟨dataFetch yfData, dataFetch csvData⟩
        (st0of (run ⟨dataFetch yfData, dataFetch csvData⟩ db0 ts today).2) g =
      Except.ok
        (st0of (run ⟨dataFetch yfData, dataFetch csvData⟩ db0 ts today).2)
      := by
    intro g hg
    obtain ⟨g1, g2⟩ := g
    apply yfStep_noop
    intro r hr hs d hd hmax hle
    have hg1d : g1 ≤ d := le_trans (le_max_left _ _) hmax
    have hEd : EARLIEST_DATE ≤ d := le_trans (le_max_right _ _) hmax
    have hk := (gap2_day_in_db1 yfData csvData db0 ts today g1 g2 hg
      r d hd hs hg1d hle).1 hr hEd
    have hg2 := hg
    unfold gaps0 at hg2
    obtain ⟨_, _, _, h4, _, _⟩ := (getGaps_mem_iff ts today
      (fun x => (dbDates (run ⟨dataFetch yfData, dataFetch csvData⟩
        db0 ts today).2).contains x) g1 g2).1 hg2
    exact (contains_false_iff _ d).mp (h4 d hg1d hle) hk
  have hcsvnoop : ∀ g ∈ gaps0
      (run ⟨dataFetch yfData, dataFetch csvData⟩ db0 ts today).2 ts today,
      csvGapStep ⟨dataFetch yfData, dataFetch csvData⟩
        (st0of (run ⟨dataFetch yfData, dataFetch csvData⟩ db0 ts today).2) g =
      Except.ok
        (st0of (run ⟨dataFetch yfData, dataFetch csvData⟩ db0 ts today).2)
      := by
    intro g hg
    obtain ⟨g1, g2⟩ := g
    apply csvStep_noop
    intro r hr hs d hd h1 h2
    have hd2 : d ≤ g2 := le_trans h2 (min_le_left _ _)
    have hdE : d ≤ EARLIEST_DATE - 1 := le_trans h2 (min_le_right _ _)
    exact (gap2_day_in_db1 yfData csvData db0 ts today g1 g2 hg
      r d hd hs h1 hd2).2 hr hdE
  rw [run_eq_split ⟨dataFetch yfData, dataFetch csvData⟩
    (run ⟨dataFetch yfData, dataFetch csvData⟩ db0 ts today).2 ts today]
  by_cases hg2 : (gaps0
      (run ⟨dataFetch yfData, dataFetch csvData⟩ db0 ts today).2 ts
      today).isEmpty = true
  · rw [if_pos hg2]
    refine ⟨rfl, ?_⟩
    rw [hgr1]
    exact (List.isEmpty_iff.mp hg2).symm
  · rw [if_neg hg2]
    have hyfp : yfP ⟨dataFetch yfData, dataFetch csvData⟩
        (run ⟨dataFetch yfData, dataFetch csvData⟩ db0 ts today).2 ts today =
        (st0of (run ⟨dataFetch yfData, dataFetch csvData⟩ db0 ts today).2,
          []) :=
      runProvider_noop _ _ _ _ hyfnoop
    have hcsvp : csvP ⟨dataFetch yfData, dataFetch csvData⟩
        (run ⟨dataFetch yfData, dataFetch csvData⟩ db0 ts today).2 ts today =
        (st0of (run ⟨dataFetch yfData, dataFetch csvData⟩ db0 ts today).2,
          []) := by
      unfold csvP
      rw [hyfp]
      exact runProvider_noop _ _ _ _ hcsvnoop
    rw [hcsvp]
    refine ⟨rfl, ?_⟩
    rw [hgr1]
    rfl

/-! ## Resilient transport: `HTTPClient._request` (src/utils/http_client.py)

Caching is disabled here (`cache_ttl = 0` is the constructor default, and the
backfill claims exercise the retry logic).  The rate limiter wait before each
attempt introduces no observable change to the outcome and is not modelled.
JSON decoding is abstracted into the payload string. -/

/-- One transport response: an HTTP response (status code, optional
`Retry-After` header value, decoded payload) or a `requests` exception. -/
inductive TResp where
  | http (status : Nat) (retryAfter : Option Rat) (payload : String)
  | netError (msg : String)
deriving DecidableEq

/-- Errors `_request` can raise: `APIError` with a status code, a re-raised
`requests` exception, or `APIError("Max retries exceeded")`. -/
inductive RErr where
  | apiError (status : Nat)
  | netErr (msg : String)
  | maxRetriesExceeded
deriving DecidableEq

/-- `HTTPClient.RETRYABLE_STATUS`. -/
def RETRYABLE_STATUS : List Nat := [429, 500, 502, 503, 504]

/-- `HTTPClient.NON_RETRYABLE_STATUS`. -/
def NON_RETRYABLE_STATUS : List Nat := [400, 401, 403, 404]

/-- Backoff before the next attempt: `min(2 ** attempt * 2, 60)` seconds. -/
def backoff (attempt : Nat) : Rat := min ((2 : Rat) ^ attempt * 2) 60

/-- Outcome of `_request`: the returned payload or raised error, the number of
transport attempts made, and every `time.sleep` duration in order. -/
structure ReqResult where
  outcome : Except RErr String
  attempts : Nat
  sleeps : List Rat

/-- The `for attempt in range(max_retries + 1)` loop of `_request`.
`transport i` is the response of the `i`-th transport call; `remaining` counts
attempts left and `attempt` those already made.  A 200 returns the payload; a
non-retryable status raises immediately; a retryable status sleeps for the
`Retry-After` value if present, else the exponential backoff, and continues;
any other status raises; a transport exception sleeps (except after the last
attempt) and continues.  When the loop ends, the last error (or
`APIError("Max retries exceeded")`) is raised. -/
def reqLoop (transport : Nat → TResp) (maxRetries : Nat) :
    Nat → Nat → Option RErr → List Rat → ReqResult
  | 0, attempt, lastErr, sleeps =>
    ⟨Except.error (lastErr.getD RErr.maxRetriesExceeded), attempt, sleeps⟩
  | remaining + 1, attempt, lastErr, sleeps =>
    match transport attempt with
    | TResp.http s ra payload =>
      if s = 200 then ⟨Except.ok payload, attempt + 1, sleeps⟩
      else if s ∈ NON_RETRYABLE_STATUS then
        ⟨Except.error (RErr.apiError s), attempt + 1, sleeps⟩
      else if s ∈ RETRYABLE_STATUS then
        reqLoop transport maxRetries remaining (attempt + 1)
          (some (RErr.apiError s)) (sleeps ++ [ra.getD (backoff attempt)])
      else ⟨Except.error (RErr.apiError s), attempt + 1, sleeps⟩
    | TResp.netError m =>
      reqLoop transport maxRetries remaining (attempt + 1)
        (some (RErr.netErr m))
        (if attempt < maxRetries then sleeps ++ [backoff attempt] else sleeps)

/-- `HTTPClient._request` with caching disabled. -/
def request (transport : Nat → TResp) (maxRetries : Nat) : ReqResult :=
  reqLoop transport maxRetries (maxRetries + 1) 0 none []

theorem reqLoop_succ (transport : Nat → TResp)
    (maxRetries remaining attempt : Nat) (lastErr : Option RErr)
    (sleeps : List Rat) :
    reqLoop transport maxRetries (remaining + 1) attempt lastErr sleeps =
      match transport attempt with
      | TResp.http s ra payload =>
        if s = 200 then ⟨Except.ok payload, attempt + 1, sleeps⟩
        else if s ∈ NON_RETRYABLE_STATUS then
          ⟨Except.error (RErr.apiError s), attempt + 1, sleeps⟩
        else if s ∈ RETRYABLE_STATUS then
          reqLoop transport maxRetries remaining (attempt + 1)
            (some (RErr.apiError s)) (sleeps ++ [ra.getD (backoff attempt)])
        else ⟨Except.error (RErr.apiError s), attempt + 1, sleeps⟩
      | TResp.netError m =>
        reqLoop transport maxRetries remaining (attempt + 1)
          (some (RErr.netErr m))
          (if attempt < maxRetries then sleeps ++ [backoff attempt]
            else sleeps) := rfl

theorem reqLoop_retryable_chain (transport : Nat → TResp) (maxRetries : Nat)
    (st : Nat → Nat) (ra : Nat → Option Rat) (pl : Nat → String)
    (raN : Option Rat) (payload : String)
    (htr : ∀ i, i < maxRetries → transport i = TResp.http (st i) (ra i) (pl i))
    (hst : ∀ i, i < maxRetries → st i ∈ RETRYABLE_STATUS)
    (hfin : transport maxRetries = TResp.http 200 raN payload) :
    ∀ (k attempt : Nat) (lastErr : Option RErr) (sleeps : List Rat),
      attempt + k = maxRetries →
      reqLoop transport maxRetries (k + 1) attempt lastErr sleeps =
        ⟨Except.ok payload, maxRetries + 1,
          sleeps ++ (List.range' attempt k).map
            (fun i => (ra i).getD (backoff i))⟩ := by
  intro k
  induction k with
  | zero =>
    intro attempt lastErr sleeps hak
    have ha : attempt = maxRetries := by omega
    subst ha
    rw [reqLoop_succ, hfin]
    simp
  | succ k ih =>
    intro attempt lastErr sleeps hak
    have hlt : attempt < maxRetries := by omega
    have htr2 := htr attempt hlt
    have hst2 := hst attempt hlt
    have hs200 : ¬(st attempt = 200) := by
      have : st attempt = 429 ∨ st attempt = 500 ∨ st attempt = 502 ∨
          st attempt = 503 ∨ st attempt = 504 := by
        simpa [RETRYABLE_STATUS] using hst2
      omega
    have hsNR : ¬(st attempt ∈ NON_RETRYABLE_STATUS) := by
      have h5 : st attempt = 429 ∨ st attempt = 500 ∨ st attempt = 502 ∨
          st attempt = 503 ∨ st attempt = 504 := by
        simpa [RETRYABLE_STATUS] using hst2
      intro hmem
      have h4 : st attempt = 400 ∨ st attempt = 401 ∨ st attempt = 403 ∨
          st attempt = 404 := by
        simpa [NON_RETRYABLE_STATUS] using hmem
      omega
    rw [reqLoop_succ, htr2]
    dsimp only
    rw [if_neg hs200, if_neg hsNR, if_pos hst2]
    rw [ih (attempt + 1) (some (RErr.apiError (st attempt)))
      (sleeps ++ [(ra attempt).getD (backoff attempt)]) (by omega)]
    rw [List.range'_succ]
    simp

/-- C7: a non-retryable status (400, 401, 403, 404) on the first response
makes exactly one attempt, raises the client `APIError` immediately and never
sleeps; a retryable status on each of the first `max_retries` attempts
followed by a 200 succeeds after exactly `max_retries` retries
(`max_retries + 1` attempts), sleeping between attempts for the `Retry-After`
value when present and otherwise for `min(2 ** attempt * 2, 60)`. -/
theorem C7_retry_boundary :
    (∀ (transport : Nat → TResp) (maxRetries s : Nat) (ra : Option Rat)
      (p : String), transport 0 = TResp.http s ra p →
      s ∈ NON_RETRYABLE_STATUS →
      request transport maxRetries =
        ⟨Except.error (RErr.apiError s), 1, []⟩) ∧
    (∀ (transport : Nat → TResp) (maxRetries : Nat)
      (st : Nat → Nat) (ra : Nat → Option Rat) (pl : Nat → String)
      (raN : Option Rat) (payload : String),
      (∀ i, i < maxRetries → transport i = TResp.http (st i) (ra i) (pl i)) →
      (∀ i, i < maxRetries → st i ∈ RETRYABLE_STATUS) →
      transport maxRetries = TResp.http 200 raN payload →
      request transport maxRetries =
        ⟨Except.ok payload, maxRetries + 1,
          (List.range maxRetries).map
            (fun i => (ra i).getD (backoff i))⟩) := by
  constructor
  · intro transport maxRetries s ra p htr hmem
    have hs200 : ¬(s = 200) := by
      have : s = 400 ∨ s = 401 ∨ s = 403 ∨ s = 404 := by
        simpa [NON_RETRYABLE_STATUS] using hmem
      omega
    unfold request
    rw [reqLoop_succ, htr]
    dsimp only
    rw [if_neg hs200, if_pos hmem]
  · intro transport maxRetries st ra pl raN payload htr hst hfin
    unfold request
    rw [reqLoop_retryable_chain transport maxRetries st ra pl raN payload
      htr hst hfin maxRetries 0 none [] (by omega)]
    rw [List.range_eq_range']
    simp

/-- Transport fixture that always answers HTTP 404. -/
def c7t404 : Nat → TResp := fun _ => TResp.http 404 none "nf"

/-- Transport fixture: 503 (no Retry-After), then 429 with Retry-After 7,
then 200. -/
def c7t503 : Nat → TResp := fun i =>
  if i = 0 then TResp.http 503 none "e1"
  else if i = 1 then TResp.http 429 (some 7) "e2"
  else TResp.http 200 none "okbody"

/-- C7 witness: both parts of the theorem at concrete transports — a constant
404 fails in one attempt with no sleep, and 503/429-then-200 with
`max_retries = 2` succeeds on the third attempt sleeping the backoff then the
Retry-After value. -/
theorem C7_witness :
    request c7t404 3 = ⟨Except.error (RErr.apiError 404), 1, []⟩ ∧
    request c7t503 2 = ⟨Except.ok "okbody", 2 + 1,
      (List.range 2).map (fun i =>
        ((if i = 0 then none else some (7 : Rat)).getD (backoff i)))⟩ :=
  ⟨C7_retry_boundary.1 c7t404 3 404 none "nf" rfl (by decide),
   C7_retry_boundary.2 c7t503 2 (fun i => if i = 0 then 503 else 429)
     (fun i => if i = 0 then none else some 7)
     (fun i => if i = 0 then "e1" else "e2") none "okbody"
     (by decide) (by decide) (by decide)⟩

/-! ## Provider adapters (C8): `YFinanceClient.get_daily_prices`
(src/monitor/api/yfinance_client.py) and `CSVBackfill.get_daily_prices`
(src/monitor/api/csv_backfill.py) -/

/-- One row of the yfinance history DataFrame: index date, Close, Volume. -/
structure YfRow where
  day : Nat
  close : Rat
  volume : Rat
deriving DecidableEq

/-- `YFinanceClient.get_daily_prices`: clamp the start up to `EARLIEST_DATE`,
return `[]` WITHOUT calling the library when `end_date <= start_date` (note
the `<=`), otherwise call `ticker.history(start, end + 1 day)` (the library
end is exclusive) and keep the rows with positive close price.  The library
call is the injected `history` function; the Bool records whether it was
called. -/
def yfGetDailyPrices (history : Nat → Nat → List YfRow)
    (start_date end_date : Nat) : List PriceRec × Bool :=
  let start2 := if start_date < EARLIEST_DATE then EARLIEST_DATE
    else start_date
  if end_date ≤ start2 then ([], false)
  else
    ((((history start2 (end_date + 1)).filter
        (fun row => decide (0 < row.close))).map
      (fun row => ⟨some row.day, row.close⟩)), true)

/-- `CSVBackfill.get_daily_prices`: read bundled rows `(date, price)` and keep
those inside `[start_date, end_date]` (inclusive string comparison on ISO
dates = ordinal comparison) with positive price; no clamping of either end,
no early return. -/
def csvGetDailyPrices (rows : List (Nat × Rat))
    (start_date end_date : Nat) : List PriceRec :=
  (rows.filter (fun row =>
    decide (start_date ≤ row.1 ∧ row.1 ≤ end_date) &&
      decide (0 < row.2))).map
    (fun row => ⟨some row.1, row.2⟩)

/-- History fixture that returns one positive-price row at the start of the
requested window. -/
def c8hist : Nat → Nat → List YfRow := fun s _ => [⟨s, 100, 0⟩]

/-- C8 counterexample: for a one-day range `[EARLIEST_DATE + 10,
EARLIEST_DATE + 10]` (already inside coverage, so clamping does not change
it), the yfinance adapter returns `[]` WITHOUT calling the library — the code
treats `end_date <= start_date` as empty, not only `end_date < start_date`,
although the library would have returned a valid row. -/
theorem C8_counterexample :
    yfGetDailyPrices c8hist (EARLIEST_DATE + 10) (EARLIEST_DATE + 10) =
      ([], false) ∧
    max (EARLIEST_DATE + 10) EARLIEST_DATE = EARLIEST_DATE + 10 ∧
    c8hist (EARLIEST_DATE + 10) (EARLIEST_DATE + 11) =
      [⟨EARLIEST_DATE + 10, 100, 0⟩] := by
  decide

/-- C8 (amended): the yfinance adapter clamps only the start of the range up
to `EARLIEST_DATE` and returns `[]` without calling the transport exactly
when clamped `end <= start` — a one-day range (end equal to start) is also
treated as empty, not fetched.  The CSV adapter performs no clamping and
filters rows to the inclusive range, so an inverted range yields `[]` and a
one-day range yields exactly the rows of that day. -/
theorem C8_adapter_clamping_amended :
    (∀ (history : Nat → Nat → List YfRow) (s e : Nat),
      (yfGetDailyPrices history s e).2 = false ↔ e ≤ max s EARLIEST_DATE) ∧
    (∀ (history : Nat → Nat → List YfRow) (s e : Nat),
      e ≤ max s EARLIEST_DATE → yfGetDailyPrices history s e = ([], false)) ∧
    (∀ (rows : List (Nat × Rat)) (s e : Nat), e < s →
      csvGetDailyPrices rows s e = []) ∧
    (∀ (rows : List (Nat × Rat)) (s : Nat) (row : Nat × Rat), row ∈ rows →
      0 < row.2 → row.1 = s →
      (⟨some s, row.2⟩ : PriceRec) ∈ csvGetDailyPrices rows s s) := by
  have hclamp : ∀ s : Nat,
      (if s < EARLIEST_DATE then EARLIEST_DATE else s) = max s EARLIEST_DATE
      := by
    intro s
    by_cases h : s < EARLIEST_DATE
    · rw [if_pos h]
      omega
    · rw [if_neg h]
      omega
  refine ⟨?_, ?_, ?_, ?_⟩
  · intro history s e
    unfold yfGetDailyPrices
    rw [hclamp s]
    by_cases h : e ≤ max s EARLIEST_DATE
    · rw [if_pos h]
      simpa using h
    · rw [if_neg h]
      simpa using h
  · intro history s e h
    unfold yfGetDailyPrices
    rw [hclamp s]
    rw [if_pos h]
  · intro rows s e h
    unfold csvGetDailyPrices
    have : rows.filter (fun row =>
        decide (s ≤ row.1 ∧ row.1 ≤ e) && decide (0 < row.2)) = [] := by
      rw [List.filter_eq_nil]
      intro row hrow
      simp only [Bool.and_eq_true, decide_eq_true_eq, not_and]
      intro hcon
      omega
    rw [this]
    rfl
  · intro rows s row hrow hpos hday
    unfold csvGetDailyPrices
    rw [← hday]
    refine List.mem_map_of_mem _ (List.mem_filter.mpr ⟨hrow, ?_⟩)
    simp only [Bool.and_eq_true, decide_eq_true_eq]
    exact ⟨⟨le_rfl, le_rfl⟩, hpos⟩

/-- C8 witness: the amended theorem at concrete inputs — the one-day in-range
request is treated as empty without a library call, an inverted CSV range is
empty, and a one-day CSV range returns its row. -/
theorem C8_witness :
    ((yfGetDailyPrices c8hist (EARLIEST_DATE + 10) (EARLIEST_DATE + 10)).2 =
        false ↔
      EARLIEST_DATE + 10 ≤ max (EARLIEST_DATE + 10) EARLIEST_DATE) ∧
    csvGetDailyPrices [(5, 9)] 7 6 = [] ∧
    (⟨some 5, (9 : Rat)⟩ : PriceRec) ∈ csvGetDailyPrices [(5, 9)] 5 5 :=
  ⟨C8_adapter_clamping_amended.1 c8hist (EARLIEST_DATE + 10)
      (EARLIEST_DATE + 10),
   C8_adapter_clamping_amended.2.2.1 [(5, 9)] 7 6 (by decide),
   C8_adapter_clamping_amended.2.2.2 [(5, 9)] 5 (5, 9) (by decide)
     (by decide) rfl⟩

/-! ## TTL cache: `TTLCache` (src/utils/cache.py) -/

/-- One cache entry: stored value and absolute expiry time
(`stored_at + ttl`). -/
structure CacheEntry (α : Type) where
  value : α
  expires : Rat

/-- The `_store` dict of `TTLCache`. -/
abbrev TTLStore (α : Type) : Type := List (String × CacheEntry α)

/-- `TTLCache.set(key, value, ttl)` at time `now`:
`store[key] = {value, expires: now + ttl}` (dict assignment). -/
def ttlSet {α : Type} (c : TTLStore α) (now : Rat) (key : String) (v : α)
    (ttl : Rat) : TTLStore α :=
  if c.any (fun p => p.1 == key) then
    c.map (fun p => if p.1 == key then (key, ⟨v, now + ttl⟩) else p)
  else c ++ [(key, ⟨v, now + ttl⟩)]

/-- `TTLCache.get(key)` at time `now`: a missing key yields `None`; an entry
with `time.time() > expires` is deleted and yields `None`; otherwise the
stored value is returned. -/
def ttlGet {α : Type} (c : TTLStore α) (now : Rat) (key : String) :
    Option α × TTLStore α :=
  match c.find? (fun p => p.1 == key) with
  | none => (none, c)
  | some p =>
    if p.2.expires < now then (none, c.filter (fun q => !(q.1 == key)))
    else (some p.2.value, c)

theorem ttlSet_find {α : Type} (c : TTLStore α) (now : Rat) (key : String)
    (v : α) (ttl : Rat) :
    (ttlSet c now key v ttl).find? (fun p => p.1 == key) =
      some (key, ⟨v, now + ttl⟩) := by
  unfold ttlSet
  by_cases hany : c.any (fun p => p.1 == key) = true
  · rw [if_pos hany]
    have hpred : (fun p : String × CacheEntry α =>
        ((if (p.1 == key) = true then (key, ⟨v, now + ttl⟩) else p).1 == key))
        = fun p => (p.1 == key) := by
      funext p
      by_cases hpd : (p.1 == key) = true
      · simp [hpd]
      · simp [hpd]
    rw [List.find?_map, Function.comp_def]
    simp only [hpred]
    have h1 : (c.find? (fun p => (p.1 == key))).isSome := by
      rw [List.find?_isSome]
      rw [List.any_eq_true] at hany
      obtain ⟨q, hq, hqd⟩ := hany
      exact ⟨q, hq, hqd⟩
    obtain ⟨q2, hq2⟩ := Option.isSome_iff_exists.1 h1
    have hq2d := List.find?_some hq2
    have hq2eq : q2.1 = key := by simpa using hq2d
    rw [hq2]
    simp [hq2eq]
  · rw [if_neg hany]
    rw [List.find?_append]
    have hnone : c.find? (fun p => (p.1 == key)) = none := by
      rw [List.find?_eq_none]
      intro p hp hpd
      rw [List.any_eq_true] at hany
      exact hany ⟨p, hp, hpd⟩
    rw [hnone]
    simp [List.find?]

/-- C9 counterexample: set a key at time 0 with `ttl = 10` and read it back
at time 10, so that `now - stored_at = ttl` exactly: the claim says the entry
behaves as absent, but `TTLCache.get` uses `time.time() > expires` and still
returns the value (a hit at the boundary). -/
theorem C9_counterexample :
    (ttlGet (ttlSet ([] : TTLStore Nat) 0 "k1" 42 10) 10 "k1").1 = some 42 ∧
    (10 : Rat) - 0 = 10 := by
  constructor
  · unfold ttlGet
    rw [ttlSet_find ([] : TTLStore Nat) 0 "k1" 42 10]
    dsimp only
    rw [if_neg (by norm_num : ¬((0 : Rat) + 10 < 10))]
  · norm_num

/-- C9 (amended): for a key stored at `stored_at` with time-to-live `ttl`, a
get at time `now` is a hit exactly while `now - stored_at <= ttl`; once
`now - stored_at > ttl` the get returns absent and that read removes the
expired entry from the store. -/
theorem C9_ttl_cache_amended (α : Type) (c : TTLStore α)
    (stored now ttl : Rat) (key : String) (v : α) :
    (now - stored ≤ ttl →
      ttlGet (ttlSet c stored key v ttl) now key =
        (some v, ttlSet c stored key v ttl)) ∧
    (ttl < now - stored →
      (ttlGet (ttlSet c stored key v ttl) now key).1 = none ∧
      ((ttlGet (ttlSet c stored key v ttl) now key).2).find?
        (fun p => p.1 == key) = none) := by
  have hfind := ttlSet_find c stored key v ttl
  constructor
  · intro h
    unfold ttlGet
    rw [hfind]
    dsimp only
    rw [if_neg (by
      simp only [not_lt]
      linarith)]
  · intro h
    unfold ttlGet
    rw [hfind]
    dsimp only
    rw [if_pos (by linarith)]
    refine ⟨rfl, ?_⟩
    rw [List.find?_eq_none]
    intro q hq hcon
    rw [List.mem_filter] at hq
    have hq2 := hq.2
    rw [hcon] at hq2
    simp at hq2

/-- C9 witness: the amended theorem with a key stored at time 0 and
`ttl = 10`, read at time 5 (hit) and at time 20 (absent and evicted). -/
theorem C9_witness :
    (ttlGet (ttlSet ([] : TTLStore Nat) 0 "k1" 42 10) 5 "k1" =
      (some 42, ttlSet ([] : TTLStore Nat) 0 "k1" 42 10)) ∧
    ((ttlGet (ttlSet ([] : TTLStore Nat) 0 "k1" 42 10) 20 "k1").1 = none ∧
      ((ttlGet (ttlSet ([] : TTLStore Nat) 0 "k1" 42 10) 20 "k1").2).find?
        (fun p => p.1 == "k1") = none) :=
  ⟨(C9_ttl_cache_amended Nat [] 0 5 10 "k1" 42).1 (by norm_num),
   (C9_ttl_cache_amended Nat [] 0 20 10 "k1" 42).2 (by norm_num)⟩

/-! ## Token bucket: `RateLimiter` (src/utils/rate_limiter.py) -/

/-- The fields of `RateLimiter`. -/
structure RLState where
  rate : Rat
  maxTokens : Rat
  tokens : Rat
  lastTime : Rat

/-- `RateLimiter(calls_per_minute)` constructed at monotonic time `now`:
`rate = calls_per_minute / 60` tokens per second, a full bucket of
`calls_per_minute` tokens. -/
def rlInit (callsPerMinute now : Rat) : RLState :=
  ⟨callsPerMinute / 60, callsPerMinute, callsPerMinute, now⟩

/-- `RateLimiter.wait()` at monotonic time `now`: refill
`elapsed * rate` tokens capped at `max_tokens`, stamp `last_time = now`, then
either sleep `(1 - tokens) / rate` seconds and zero the bucket (when fewer
than one token is available) or consume one token.  The second component is
the sleep duration (0 when no sleep happens). -/
def rlWait (s : RLState) (now : Rat) : RLState × Rat :=
  if min s.maxTokens (s.tokens + (now - s.lastTime) * s.rate) < 1 then
    (⟨s.rate, s.maxTokens, 0, now⟩,
      (1 - min s.maxTokens (s.tokens + (now - s.lastTime) * s.rate)) / s.rate)
  else
    (⟨s.rate, s.maxTokens,
      min s.maxTokens (s.tokens + (now - s.lastTime) * s.rate) - 1, now⟩, 0)

/-- C10: every `wait()` preserves `0 <= tokens <= capacity` (given a
monotonic clock and a positive rate): it first adds `elapsed * rate` tokens
capped at capacity, then either subtracts 1 when at least one token is
available, or sleeps `(1 - tokens) / rate` seconds and sets the bucket to 0;
and the constructor sets `rate = calls_per_minute / 60` with a full bucket. -/
theorem C10_token_bucket (s : RLState) (now : Rat)
    (h0 : 0 ≤ s.tokens) (h1 : s.tokens ≤ s.maxTokens)
    (hlt : s.lastTime ≤ now) (hrate : 0 < s.rate) :
    (0 ≤ ((rlWait s now).1).tokens ∧
      ((rlWait s now).1).tokens ≤ ((rlWait s now).1).maxTokens ∧
      ((rlWait s now).1).maxTokens = s.maxTokens ∧
      ((rlWait s now).1).rate = s.rate) ∧
    (min s.maxTokens (s.tokens + (now - s.lastTime) * s.rate) < 1 →
      ((rlWait s now).1).tokens = 0 ∧
      (rlWait s now).2 =
        (1 - min s.maxTokens (s.tokens + (now - s.lastTime) * s.rate)) /
          s.rate) ∧
    (1 ≤ min s.maxTokens (s.tokens + (now - s.lastTime) * s.rate) →
      ((rlWait s now).1).tokens =
        min s.maxTokens (s.tokens + (now - s.lastTime) * s.rate) - 1 ∧
      (rlWait s now).2 = 0) ∧
    (∀ cpm t0 : Rat, rlInit cpm t0 = ⟨cpm / 60, cpm, cpm, t0⟩) := by
  have hmax0 : 0 ≤ s.maxTokens := le_trans h0 h1
  have helapsed : 0 ≤ (now - s.lastTime) * s.rate :=
    mul_nonneg (by linarith) (le_of_lt hrate)
  have htk1 : min s.maxTokens (s.tokens + (now - s.lastTime) * s.rate) ≤
      s.maxTokens := min_le_left _ _
  unfold rlWait
  by_cases hb : min s.maxTokens (s.tokens + (now - s.lastTime) * s.rate) < 1
  · rw [if_pos hb]
    exact ⟨⟨le_rfl, hmax0, rfl, rfl⟩,
      fun _ => ⟨rfl, rfl⟩,
      fun hcon => absurd hcon (by linarith),
      fun cpm t0 => rfl⟩
  · rw [if_neg hb]
    refine ⟨⟨?_, ?_, rfl, rfl⟩, fun hcon => absurd hcon hb,
      fun _ => ⟨rfl, rfl⟩, fun cpm t0 => rfl⟩
    · show (0 : Rat) ≤
        min s.maxTokens (s.tokens + (now - s.lastTime) * s.rate) - 1
      simp only [not_lt] at hb
      linarith
    · show min s.maxTokens (s.tokens + (now - s.lastTime) * s.rate) - 1 ≤
        s.maxTokens
      linarith

/-- C10 witness: the theorem at a concrete limiter (rate 1 token/s, capacity
60, 5 tokens, last refill at time 0) woken at time 1. -/
theorem C10_witness :
    (0 ≤ ((rlWait ⟨1, 60, 5, 0⟩ 1).1).tokens ∧
      ((rlWait ⟨1, 60, 5, 0⟩ 1).1).tokens ≤
        ((rlWait ⟨1, 60, 5, 0⟩ 1).1).maxTokens ∧
      ((rlWait ⟨1, 60, 5, 0⟩ 1).1).maxTokens = (60 : Rat) ∧
      ((rlWait ⟨1, 60, 5, 0⟩ 1).1).rate = (1 : Rat)) ∧
    (min (60 : Rat) (5 + (1 - 0) * 1) < 1 →
      ((rlWait ⟨1, 60, 5, 0⟩ 1).1).tokens = 0 ∧
      (rlWait ⟨1, 60, 5, 0⟩ 1).2 =
        (1 - min (60 : Rat) (5 + (1 - 0) * 1)) / 1) ∧
    (1 ≤ min (60 : Rat) (5 + (1 - 0) * 1) →
      ((rlWait ⟨1, 60, 5, 0⟩ 1).1).tokens =
        min (60 : Rat) (5 + (1 - 0) * 1) - 1 ∧
      (rlWait ⟨1, 60, 5, 0⟩ 1).2 = 0) ∧
    (∀ cpm t0 : Rat, rlInit cpm t0 = ⟨cpm / 60, cpm, cpm, t0⟩) :=
  C10_token_bucket ⟨1, 60, 5, 0⟩ 1 (by norm_num) (by norm_num)
    (by norm_num) (by norm_num)
